import Mathlib

/-
Verification development for the radix-engine transaction-local state machine:
the call-frame / value-ownership / substate-track machinery
(radix-engine/src/engine/{call_frame.rs, track.rs, values.rs}).

Modelling conventions:
- Machine integers and abstract identifiers (addresses, hashes, UUIDs, strings)
  are modelled as `Nat`; byte strings as `List Nat`.
- Rust `HashMap`s are modelled as association lists with replace-in-place
  insertion and filter-based removal; `IndexMap`/`IndexSet` (insertion-ordered)
  are association lists whose `remove` is indexmap's `swap_remove`.
- Rust panicking paths (via unwrap / expect / panicking branches) are modelled as distinguished
  error outcomes (`TrackError.Panicked`, `RuntimeError.Panic`); code paths
  returning errors hand back the mutated state, mirroring `&mut self`.
- Types defined outside the provided engine sources (Bucket, Proof, Component,
  Worktop, AuthZone, ScryptoValue, the id allocator) are modelled from the
  spec; each such definition carries a note.
-/

/-- Byte strings (`Vec<u8>`). -/
abbrev Bytes := List Nat

/-- Modelled from the spec: `ScryptoValue` (scrypto/values.rs is not among the
provided sources). A decoded value is abstracted to its raw bytes plus the
lists of identifiers the codec extracts from it (`bucket_ids`, `proof_ids`,
`vault_ids`, `kv_store_ids`, nested component ids, `resource_addresses`). -/
structure ScryptoValue where
  raw : Bytes
  bucketIds : List Nat
  proofIds : List Nat
  vaultIds : List Nat
  kvStoreIds : List Nat
  componentIds : List Nat
  resourceAddresses : List Nat
deriving DecidableEq

/-- Modelled from the spec: a `Bucket` (model/bucket.rs is not among the
provided sources): a transient container over one resource; `locked` means it
has outstanding proofs (`Bucket::is_locked`). -/
structure Bucket where
  resourceAddress : Nat
  locked : Bool
  nonFungibleIds : List Nat
deriving DecidableEq

/-- Modelled from the spec: a `Proof` (model/proof.rs is not among the provided
sources): a capability witness over a resource; `restricted` is the flag set by
`change_to_restricted` and read by `is_restricted`. -/
structure Proof where
  resourceAddress : Nat
  restricted : Bool
  nonFungibleIds : List Nat
deriving DecidableEq

/-- Modelled from the spec: a `Component` (model/component.rs is not among the
provided sources): package address, blueprint name, and its state blob. The
state blob is carried in decoded form (`ScryptoValue`), so
`ScryptoValue::from_slice(component.state())` is modelled as the identity. -/
structure Component where
  packageAddress : Nat
  blueprintName : Nat
  state : ScryptoValue
deriving DecidableEq

/-- Modelled from the spec: a `Worktop` (model/worktop.rs is not among the
provided sources); only emptiness is observed by the engine sources. -/
structure Worktop where
  buckets : List Bucket

/-- Worktop emptiness check (`Worktop::is_empty`). -/
def Worktop.isEmpty (w : Worktop) : Bool := w.buckets.isEmpty

/-- Modelled from the spec: an `AuthZone` (model/auth_zone.rs is not among the
provided sources): a per-frame stack of proofs. -/
structure AuthZone where
  proofs : List Proof

/-- Tagged value identifier (`ValueId`, scrypto/engine/types.rs; variants per
spec §3). -/
inductive ValueId where
  | Bucket (id : Nat)
  | Proof (id : Nat)
  | Vault (id : Nat)
  | KeyValueStore (id : Nat)
  | Component (addr : Nat)
  | Package (addr : Nat)
  | Resource (addr : Nat)
  | NonFungibles (resourceAddr : Nat)
deriving DecidableEq

/-- One hop of an in-memory path (`AddressPath`): a ValueId hop (`vid`) or raw
key bytes (`key`), as used by call_frame.rs. -/
inductive AddressPath where
  | vid (v : ValueId)
  | key (k : Bytes)
deriving DecidableEq

/-- Canonical substate key (`Address`, track.rs). -/
inductive Address where
  | Resource (addr : Nat)
  | GlobalComponent (addr : Nat)
  | Package (addr : Nat)
  | NonFungibleSet (resourceAddr : Nat)
  | KeyValueStore (ancestors : List AddressPath) (id : Nat)
  | Vault (ancestors : List AddressPath) (id : Nat)
  | LocalComponent (ancestors : List AddressPath) (id : Nat)
deriving DecidableEq

/-- Modelled from the spec: `scrypto_encode` of a ResourceAddress. Encodings of
the distinct address scalar types are modelled as injective tagged byte
strings (spec §4.6: fixed-width or self-delimiting constituents). -/
def encodeResourceAddress (r : Nat) : Bytes := [0, r]

/-- Modelled from the spec: `scrypto_encode` of a ComponentAddress. -/
def encodeComponentAddress (c : Nat) : Bytes := [1, c]

/-- Modelled from the spec: `scrypto_encode` of a PackageAddress. -/
def encodePackageAddress (p : Nat) : Bytes := [2, p]

/-- Modelled from the spec: `scrypto_encode` of a KeyValueStoreId. -/
def encodeKvStoreId (k : Nat) : Bytes := [3, k]

/-- Modelled from the spec: `scrypto_encode` of a VaultId. -/
def encodeVaultId (v : Nat) : Bytes := [4, v]

/-- Modelled from the spec: `ValueId::encode_address` (scrypto/engine/types.rs
is not among the provided sources); injective tagged encoding. -/
def ValueId.encodeAddress : ValueId → Bytes
  | .Bucket n => [5, n]
  | .Proof n => [6, n]
  | .Vault n => [7, n]
  | .KeyValueStore n => [8, n]
  | .Component n => [9, n]
  | .Package n => [10, n]
  | .Resource n => [11, n]
  | .NonFungibles n => [12, n]

/-- Encoding of one path hop (`AddressPath::encode`): a ValueId hop encodes via
`encode_address`; a raw key contributes its bytes (spec §4.6). -/
def AddressPath.encode : AddressPath → Bytes
  | .vid v => v.encodeAddress
  | .key k => k

/-- Byte-key serialisation of an Address (`Address::encode`, track.rs): scalar
addresses encode directly; the non-fungible space appends a zero byte to the
resource encoding; local addresses concatenate ancestor encodings then the
leaf id. -/
def Address.encode : Address → Bytes
  | .Resource r => encodeResourceAddress r
  | .GlobalComponent c => encodeComponentAddress c
  | .Package p => encodePackageAddress p
  | .NonFungibleSet r => encodeResourceAddress r ++ [0]
  | .KeyValueStore ancestors id =>
    (ancestors.foldl (fun acc a => acc ++ a.encode) []) ++ encodeKvStoreId id
  | .Vault ancestors id =>
    (ancestors.foldl (fun acc a => acc ++ a.encode) []) ++ encodeVaultId id
  | .LocalComponent ancestors id =>
    (ancestors.foldl (fun acc a => acc ++ a.encode) []) ++ encodeComponentAddress id

/-- Child address construction (`Address::child`, track.rs). The source panics
on unexpected shapes; those arms yield `none`. The `key` hop appears only at
call sites of a revision of `Address::child` missing from the provided
track.rs, so it also yields `none`. -/
def Address.child (a : Address) (childId : AddressPath) : Option Address :=
  let nextAncestors : Option (List AddressPath) :=
    match a with
    | .KeyValueStore ancestors kvStoreId =>
      some (ancestors ++ [AddressPath.vid (ValueId.KeyValueStore kvStoreId)])
    | .LocalComponent ancestors componentId =>
      some (ancestors ++ [AddressPath.vid (ValueId.Component componentId)])
    | .GlobalComponent componentAddress =>
      some [AddressPath.vid (ValueId.Component componentAddress)]
    | _ => none
  match nextAncestors, childId with
  | some next, .vid (ValueId.KeyValueStore kvStoreId) => some (.KeyValueStore next kvStoreId)
  | some next, .vid (ValueId.Vault vaultId) => some (.Vault next vaultId)
  | some next, .vid (ValueId.Component componentId) => some (.LocalComponent next componentId)
  | _, _ => none

/-- Physical id of a committed substate (`PhysicalSubstateId`: creation
transaction hash and output index). -/
structure PhysicalSubstateId where
  hash : Nat
  index : Nat
deriving DecidableEq

/-- Parent reference of a virtual substate (`SubstateParentId`, track.rs). -/
inductive SubstateParentId where
  | Exists (id : PhysicalSubstateId)
  | New (index : Nat)
deriving DecidableEq

/-- Identifier of a virtual (space-keyed) substate
(`VirtualSubstateId(SubstateParentId, Vec<u8>)`, track.rs). -/
structure VirtualSubstateId where
  parent : SubstateParentId
  key : Bytes
deriving DecidableEq

/-- Mirror variant for persisted items (`SubstateValue`, track.rs).
ResourceManager / ValidatedPackage / Vault / NonFungible payloads are abstract
to the engine sources and modelled as `Nat`. -/
inductive SubstateValue where
  | Resource (resourceManager : Nat)
  | Component (component : Component)
  | Package (package : Nat)
  | Vault (vault : Nat)
  | NonFungible (nonFungible : Option Nat)
  | KeyValueStoreEntry (entry : Option Bytes)
deriving DecidableEq

/-- Modelled from the spec: `scrypto_encode` of a SubstateValue
(`SubstateValue::encode`, track.rs), a tagged structural encoding. -/
def SubstateValue.encode : SubstateValue → Bytes
  | .Resource r => [0, r]
  | .Component c => [1, c.packageAddress, c.blueprintName] ++ c.state.raw
  | .Package p => [2, p]
  | .Vault v => [3, v]
  | .NonFungible none => [4, 0]
  | .NonFungible (some n) => [4, 1, n]
  | .KeyValueStoreEntry none => [5, 0]
  | .KeyValueStoreEntry (some bs) => [5, 1] ++ bs

/-- Borrow state of a cached substate (`BorrowedSubstate`, track.rs). -/
inductive BorrowedSubstate where
  | Loaded (value : SubstateValue) (count : Nat)
  | LoadedMut (value : SubstateValue)
  | Taken
deriving DecidableEq

/-- Constructor helper (`BorrowedSubstate::loaded`, track.rs). -/
def BorrowedSubstate.loaded (value : SubstateValue) (mutable : Bool) : BorrowedSubstate :=
  if mutable then .LoadedMut value else .Loaded value 1

/-- Track error kinds (`TrackError`, track.rs), extended with `Panicked`
modelling Rust panics on Track operations. -/
inductive TrackError where
  | Reentrancy
  | NotFound
  | Panicked
deriving DecidableEq

/-- A substate as returned by the store (`Substate { value, phys_id }`); the
value is carried pre-decoded, so `scrypto_decode` of a fetched blob is
modelled as a variant check. -/
structure Substate where
  value : SubstateValue
  physId : PhysicalSubstateId

/-- Read interface of the durable store (`ReadableSubstateStore`):
`get_substate` and `get_space` keyed by encoded bytes. -/
structure SubstateStoreModel where
  getSubstate : Bytes → Option Substate
  getSpace : Bytes → Option PhysicalSubstateId

/-- Association-list lookup, modelling `HashMap::get` (first matching key). -/
def alistLookup {α β : Type} [DecidableEq α] (k : α) : List (α × β) → Option β
  | [] => none
  | (k', v) :: rest => if k' = k then some v else alistLookup k rest

/-- Association-list insert, modelling `HashMap::insert` (and `IndexMap`
insert): replace the first binding in place, else append. -/
def alistInsert {α β : Type} [DecidableEq α] (k : α) (v : β) : List (α × β) → List (α × β)
  | [] => [(k, v)]
  | (k', v') :: rest => if k' = k then (k, v) :: rest else (k', v') :: alistInsert k v rest

/-- Association-list removal, modelling `HashMap::remove` (maps hold each key
at most once, so dropping every binding of the key is equivalent). -/
def alistRemove {α β : Type} [DecidableEq α] (k : α) : List (α × β) → List (α × β)
  | [] => []
  | p :: rest => if p.1 = k then alistRemove k rest else p :: alistRemove k rest

/-- Index of the first binding of a key in an association list. -/
def indexOfKey {α β : Type} [DecidableEq α] (k : α) : List (α × β) → Option Nat
  | [] => none
  | (k', _) :: rest => if k' = k then some 0 else (indexOfKey k rest).map (· + 1)

/-- Removal from an insertion-ordered map, modelling indexmap's
`IndexMap::remove` = `swap_remove`: the last entry moves into the hole. -/
def indexMapSwapRemove {α β : Type} [DecidableEq α] (k : α) (l : List (α × β)) :
    Option β × List (α × β) :=
  match indexOfKey k l with
  | none => (none, l)
  | some i =>
    match alistLookup k l, l.getLast? with
    | some v, some last =>
      if i + 1 = l.length then (some v, l.dropLast)
      else (some v, (l.set i last).dropLast)
    | _, _ => (none, l)

/-- Insertion into an insertion-ordered set, modelling `IndexSet::insert`:
append if absent. -/
def indexSetInsert {α : Type} [DecidableEq α] (k : α) (l : List α) : List α :=
  if l.any (fun x => x = k) then l else l ++ [k]

/-- Transaction-local staging layer over the store (`Track`, track.rs).
`idCounter` models the monotonic part of the `IdAllocator` (the allocator
itself lives outside the provided sources; spec §4.1: fresh ids are the
transaction hash plus a monotonic counter). -/
structure TrackState where
  store : SubstateStoreModel
  transactionHash : Nat
  idCounter : Nat
  logs : List (Nat × Nat)
  newAddresses : List Address
  borrowedSubstates : List (Address × BorrowedSubstate)
  downedSubstates : List PhysicalSubstateId
  downVirtualSubstates : List VirtualSubstateId
  upSubstates : List (Bytes × SubstateValue)
  upVirtualSubstateSpace : List Bytes

/-- Stage a fresh keyed row (`Track::create_uuid_value`): record the new
address and install the up-substate. -/
def TrackState.createUuidValue (t : TrackState) (addr : Address) (value : SubstateValue) :
    TrackState :=
  { t with
    newAddresses := t.newAddresses ++ [addr]
    upSubstates := alistInsert addr.encode value t.upSubstates }

/-- Record a new non-fungible space (`Track::create_non_fungible_space`). -/
def TrackState.createNonFungibleSpace (t : TrackState) (resourceAddress : Nat) : TrackState :=
  { t with
    upVirtualSubstateSpace :=
      indexSetInsert (encodeResourceAddress resourceAddress ++ [0]) t.upVirtualSubstateSpace }

/-- Record a new key space (`Track::create_key_space_2`). -/
def TrackState.createKeySpace2 (t : TrackState) (addr : Address) : TrackState :=
  { t with upVirtualSubstateSpace := indexSetInsert addr.encode t.upVirtualSubstateSpace }

/-- Acquire a lock on an address (`Track::take_lock`): a staged up-substate
moves into borrowed; an existing borrow allows only further shared locks
(count increment), a mutable request is Reentrancy; otherwise fetch from the
store, record the physical id as downed, and stage the borrow. Decode
failures and unsupported address kinds panic in the source. -/
def TrackState.takeLock (t : TrackState) (addr : Address) (mutable : Bool) :
    Except TrackError TrackState :=
  match indexMapSwapRemove addr.encode t.upSubstates with
  | (some value, up') =>
    .ok { t with
          upSubstates := up'
          borrowedSubstates :=
            alistInsert addr (BorrowedSubstate.loaded value mutable) t.borrowedSubstates }
  | (none, _) =>
    match alistLookup addr t.borrowedSubstates with
    | some current =>
      if mutable then .error .Reentrancy
      else
        match current with
        | .Taken => .error .Panicked
        | .LoadedMut _ => .error .Panicked
        | .Loaded v count =>
          .ok { t with
                borrowedSubstates :=
                  alistInsert addr (.Loaded v (count + 1)) t.borrowedSubstates }
    | none =>
      match t.store.getSubstate addr.encode with
      | some substate =>
        let decoded : Option SubstateValue :=
          match addr, substate.value with
          | .GlobalComponent _, SubstateValue.Component c => some (SubstateValue.Component c)
          | .LocalComponent _ _, SubstateValue.Component c => some (SubstateValue.Component c)
          | .Resource _, SubstateValue.Resource r => some (SubstateValue.Resource r)
          | .Vault _ _, SubstateValue.Vault v => some (SubstateValue.Vault v)
          | .Package _, SubstateValue.Package p => some (SubstateValue.Package p)
          | _, _ => none
        match decoded with
        | some value =>
          .ok { t with
                downedSubstates := t.downedSubstates ++ [substate.physId]
                borrowedSubstates :=
                  alistInsert addr (BorrowedSubstate.loaded value mutable) t.borrowedSubstates }
        | none => .error .Panicked
      | none => .error .NotFound

/-- Read a currently locked value (`Track::read_value`); panics when the
address was never locked or the value was taken. -/
def TrackState.readValue (t : TrackState) (addr : Address) : Except TrackError SubstateValue :=
  match alistLookup addr t.borrowedSubstates with
  | some (.LoadedMut value) => .ok value
  | some (.Loaded value _) => .ok value
  | some .Taken => .error .Panicked
  | none => .error .Panicked

/-- Release a lock (`Track::release_lock`): a mutable borrow re-enters the
up-substates; a shared borrow decrements its count and re-enters only at
zero; releasing a taken or unborrowed address panics. -/
def TrackState.releaseLock (t : TrackState) (addr : Address) : Except TrackError TrackState :=
  match alistLookup addr t.borrowedSubstates with
  | none => .error .Panicked
  | some borrowed =>
    let t' := { t with borrowedSubstates := alistRemove addr t.borrowedSubstates }
    match borrowed with
    | .Taken => .error .Panicked
    | .LoadedMut value =>
      .ok { t' with upSubstates := alistInsert addr.encode value t'.upSubstates }
    | .Loaded value count =>
      let count' := count - 1
      if count' = 0 then
        .ok { t' with upSubstates := alistInsert addr.encode value t'.upSubstates }
      else
        .ok { t' with
              borrowedSubstates :=
                alistInsert addr (.Loaded value count') t'.borrowedSubstates }

/-- Lazily read a keyed child entry (`Track::read_key_value`): a staged
up-substate answers directly; otherwise the store is queried, a miss
producing the typed `None` for the parent's variant. Does not record a
down. -/
def TrackState.readKeyValue (t : TrackState) (parentAddress : Address) (key : Bytes) :
    Except TrackError SubstateValue :=
  let address := parentAddress.encode ++ key
  match alistLookup address t.upSubstates with
  | some (SubstateValue.KeyValueStoreEntry e) => .ok (.KeyValueStoreEntry e)
  | some (SubstateValue.NonFungible n) => .ok (.NonFungible n)
  | some _ => .error .Panicked
  | none =>
    match parentAddress with
    | .NonFungibleSet _ =>
      match t.store.getSubstate address with
      | some r =>
        match r.value with
        | SubstateValue.NonFungible n => .ok (.NonFungible n)
        | _ => .error .Panicked
      | none => .ok (.NonFungible none)
    | .KeyValueStore _ _ =>
      match t.store.getSubstate address with
      | some r =>
        match r.value with
        | SubstateValue.KeyValueStoreEntry e => .ok (.KeyValueStoreEntry e)
        | _ => .error .Panicked
      | none => .ok (.KeyValueStoreEntry none)
    | _ => .error .Panicked

/-- Resolve the parent id for a virtual down (`Track::get_substate_parent_id`):
an index into the staged virtual spaces, else the store's space id (whose
absence panics via `unwrap`). -/
def TrackState.getSubstateParentId (t : TrackState) (spaceAddress : Bytes) :
    Except TrackError SubstateParentId :=
  match indexOfKey spaceAddress (t.upVirtualSubstateSpace.map (fun s => (s, Unit.unit))) with
  | some index => .ok (.New index)
  | none =>
    match t.store.getSpace spaceAddress with
    | some substateId => .ok (.Exists substateId)
    | none => .error .Panicked

/-- Write a keyed child entry (`Track::set_key_value`): when not already
staged, a prior store version records its physical id as downed, else a
virtual down against the parent space is recorded; in all cases the new value
is installed as the up-substate. -/
def TrackState.setKeyValue (t : TrackState) (parentAddress : Address) (key : Bytes)
    (value : SubstateValue) : Except TrackError TrackState :=
  let address := parentAddress.encode ++ key
  match indexMapSwapRemove address t.upSubstates with
  | (some _, up') =>
    .ok { t with upSubstates := alistInsert address value up' }
  | (none, up') =>
    match t.store.getSubstate address with
    | some s =>
      .ok { t with
            downedSubstates := t.downedSubstates ++ [s.physId]
            upSubstates := alistInsert address value up' }
    | none =>
      match t.getSubstateParentId parentAddress.encode with
      | .ok parentId =>
        .ok { t with
              downVirtualSubstates := t.downVirtualSubstates ++ [⟨parentId, key⟩]
              upSubstates := alistInsert address value up' }
      | .error e => .error e

/-- One receipt operation (`SubstateOperation`). -/
inductive SubstateOperation where
  | Down (id : PhysicalSubstateId)
  | VirtualDown (id : VirtualSubstateId)
  | Up (key : Bytes) (value : Bytes)
  | VirtualUp (spaceAddress : Bytes)
deriving DecidableEq

/-- Ordered operation list of a receipt (`SubstateOperationsReceipt`). -/
structure SubstateOperationsReceipt where
  substateOperations : List SubstateOperation
deriving DecidableEq

/-- Addresses still borrowed at receipt time (`BorrowedSNodes`). -/
structure BorrowedSNodes where
  borrowedSubstates : List Address
deriving DecidableEq

/-- Result of draining a Track (`TrackReceipt`). -/
structure TrackReceipt where
  borrowed : BorrowedSNodes
  newAddresses : List Address
  logs : List (Nat × Nat)
  substates : SubstateOperationsReceipt

/-- Drain the track into a receipt (`Track::to_receipt`): downs, then virtual
downs, then ups, then virtual ups, bundled with new addresses and logs. -/
def TrackState.toReceipt (t : TrackState) : TrackReceipt :=
  let storeInstructions : List SubstateOperation :=
    t.downedSubstates.foldl (fun acc s => acc ++ [SubstateOperation.Down s]) []
  let storeInstructions :=
    t.downVirtualSubstates.foldl (fun acc v => acc ++ [SubstateOperation.VirtualDown v])
      storeInstructions
  let storeInstructions :=
    t.upSubstates.foldl (fun acc p => acc ++ [SubstateOperation.Up p.1 p.2.encode])
      storeInstructions
  let storeInstructions :=
    t.upVirtualSubstateSpace.foldl (fun acc s => acc ++ [SubstateOperation.VirtualUp s])
      storeInstructions
  { borrowed := ⟨t.borrowedSubstates.map Prod.fst⟩
    newAddresses := t.newAddresses
    logs := t.logs
    substates := ⟨storeInstructions⟩ }

/-- In-memory value variant (`REValue`, values.rs). The
`PreCommittedKeyValueStore` payload (model sources not provided) is flattened
into its entry map plus children map, per spec §4.2; `NonFungibles` maps
non-fungible ids to abstract payloads. -/
inductive REValue where
  | Bucket (bucket : Bucket)
  | Proof (proof : Proof)
  | Vault (vault : Nat)
  | KeyValueStore (store : List (Bytes × ScryptoValue)) (children : List (AddressPath × REValue))
  | Component (component : Component) (childValues : List (AddressPath × REValue))
  | Package (package : Nat)
  | Resource (resourceManager : Nat)
  | NonFungibles (nonFungibles : List (Nat × Nat))

/-- Drop failure kinds (`DropFailure`; its enum lives outside the provided
sources, variants reconstructed from every use in values.rs and
call_frame.rs). -/
inductive DropFailure where
  | Package
  | Vault
  | KeyValueStore
  | Component
  | Bucket
  | Resource
  | Worktop
deriving DecidableEq

/-- Runtime error kinds (`RuntimeError`; the enum lives outside the provided
sources, variants reconstructed from every use in the engine sources).
`Panic` models Rust panics reached from call-frame code. -/
inductive RuntimeError where
  | KeyValueStoreNotAllowed
  | VaultNotAllowed
  | BucketNotAllowed
  | ProofNotAllowed
  | ValueNotFound (id : ValueId)
  | CantMoveLockedBucket
  | CantMoveRestrictedProof
  | ValueNotAllowed
  | DropFailure (kind : DropFailure)
  | ResourceManagerNotFound (addr : Nat)
  | PackageNotFound (addr : Nat)
  | ComponentNotFound (addr : Nat)
  | ComponentReentrancy (addr : Nat)
  | PackageReentrancy
  | InvalidDataAccess (id : ValueId)
  | InvalidDataWrite
  | StoredValueRemoved (id : ValueId)
  | AuthZoneDoesNotExist
  | WorktopDoesNotExist
  | BucketNotFound (id : Nat)
  | ProofNotFound (id : Nat)
  | MethodDoesNotExist
  | NotSupported
  | DecodeError
  | Panic
deriving DecidableEq

/-- Move check (`REValue::verify_can_move`, values.rs): a locked bucket and a
restricted proof cannot move; every other variant can. -/
def REValue.verifyCanMove : REValue → Except RuntimeError Unit
  | .Bucket bucket =>
    if bucket.locked then .error .CantMoveLockedBucket else .ok ()
  | .Proof proof =>
    if proof.restricted then .error .CantMoveRestrictedProof else .ok ()
  | .KeyValueStore _ _ => .ok ()
  | .Component _ _ => .ok ()
  | .Vault _ => .ok ()
  | .Resource _ => .ok ()
  | .NonFungibles _ => .ok ()
  | .Package _ => .ok ()

/-- Persistence check (`REValue::verify_can_persist`, values.rs): only
KeyValueStore, Component and Vault may cross a persistence boundary. -/
def REValue.verifyCanPersist : REValue → Except RuntimeError Unit
  | .KeyValueStore _ _ => .ok ()
  | .Component _ _ => .ok ()
  | .Vault _ => .ok ()
  | .Resource _ => .error .ValueNotAllowed
  | .NonFungibles _ => .error .ValueNotAllowed
  | .Package _ => .error .ValueNotAllowed
  | .Bucket _ => .error .ValueNotAllowed
  | .Proof _ => .error .ValueNotAllowed

/-- End-of-frame drop (`REValue::try_drop`, values.rs): every variant fails
with its drop-failure kind — `NonFungibles` with `DropFailure::Resource` —
except a Proof, which is dropped silently. -/
def REValue.tryDrop : REValue → Except DropFailure Unit
  | .Package _ => .error .Package
  | .Vault _ => .error .Vault
  | .KeyValueStore _ _ => .error .KeyValueStore
  | .Component _ _ => .error .Component
  | .Bucket _ => .error .Bucket
  | .Resource _ => .error .Resource
  | .NonFungibles _ => .error .Resource
  | .Proof _ => .ok ()

mutual
/-- Depth-first enumeration of reachable paths (`REValue::all_descendants`
together with `InMemoryChildren::all_descendants`, values.rs). -/
def REValue.allDescendants : REValue → List AddressPath
  | .KeyValueStore _ children => childrenAllDescendants children
  | .Component _ children => childrenAllDescendants children
  | _ => []
/-- Descendant enumeration over a children map
(`InMemoryChildren::all_descendants`, values.rs). -/
def childrenAllDescendants : List (AddressPath × REValue) → List AddressPath
  | [] => []
  | (id, v) :: rest => (id :: REValue.allDescendants v) ++ childrenAllDescendants rest
end

/-- Children map of a value, when the variant has one (`REValue::get_child`
dispatch, values.rs: only KeyValueStore and Component carry children). -/
def REValue.childrenOf : REValue → Option (List (AddressPath × REValue))
  | .KeyValueStore _ children => some children
  | .Component _ children => some children
  | _ => none

/-- Path walk to a nested child (`InMemoryChildren::get_child`, values.rs);
the source panics on an empty path or a missing hop (`none` here). -/
def REValue.getChild : REValue → List AddressPath → Option REValue
  | _, [] => none
  | v, first :: rest =>
    (v.childrenOf).bind fun children =>
      (alistLookup first children).bind fun child =>
        if rest.isEmpty then some child else child.getChild rest

/-- In-frame location of a value (`REValueLocation`, call_frame.rs). -/
inductive REValueLocation where
  | OwnedRoot (id : ValueId)
  | Owned (root : ValueId) (path : List AddressPath)
  | BorrowedRoot (id : ValueId)
  | Borrowed (root : ValueId) (path : List AddressPath)
  | Track (address : Address)
deriving DecidableEq

/-- Location extension by one hop (`REValueLocation::child`, call_frame.rs);
the Track arm goes through `Address::child`, whose panic arms yield `none`. -/
def REValueLocation.child (loc : REValueLocation) (childId : AddressPath) :
    Option REValueLocation :=
  match loc with
  | .OwnedRoot root => some (.Owned root [childId])
  | .Owned root path => some (.Owned root (path ++ [childId]))
  | .BorrowedRoot root => some (.Borrowed root [childId])
  | .Borrowed root path => some (.Borrowed root (path ++ [childId]))
  | .Track address => (address.child childId).map .Track

/-- Per-frame visibility record (`REValueInfo`, call_frame.rs). -/
structure REValueInfo where
  visible : Bool
  location : REValueLocation

/-- Invocation target reference (`SNodeRef`, scrypto/core; variants whose
resolution depends on native modules outside the provided sources — Consumed,
BucketRef, ProofRef, Scrypto, Component, VaultRef — are not modelled; no claim
below depends on them). -/
inductive SNodeRef where
  | TransactionProcessor
  | PackageStatic
  | SystemStatic
  | ResourceStatic
  | AuthZoneRef
  | WorktopRef
  | ResourceRef (addr : Nat)
deriving DecidableEq

/-- One element of the invocation stack (`CallFrame`, call_frame.rs). The
track is threaded separately; wasm engine, instrumenter and trace flag have no
observable state here. `frameBorrowedValues` models `RefMut` borrows from the
parent by carrying the borrowed values. -/
structure Frame where
  transactionHash : Nat
  depth : Nat
  ownedValues : List (ValueId × REValue)
  valueRefs : List (ValueId × REValueInfo)
  worktop : Option Worktop
  authZone : Option AuthZone
  frameBorrowedValues : List (ValueId × REValue)
  costUnitCounter : Option Nat
  feeTable : Option Nat

/-- The identifier lists a ScryptoValue carries (`ScryptoValue::value_ids`):
buckets, proofs, vaults, kv-stores and nested components. -/
def ScryptoValue.valueIds (v : ScryptoValue) : List ValueId :=
  v.bucketIds.map ValueId.Bucket ++ v.proofIds.map ValueId.Proof ++
  v.vaultIds.map ValueId.Vault ++ v.kvStoreIds.map ValueId.KeyValueStore ++
  v.componentIds.map ValueId.Component

/-- Call-input validation (`process_call_data`, call_frame.rs): no kv-store or
vault references may cross a call boundary by value. -/
def processCallData (validated : ScryptoValue) : Except RuntimeError Unit :=
  if validated.kvStoreIds ≠ [] then .error .KeyValueStoreNotAllowed
  else if validated.vaultIds ≠ [] then .error .VaultNotAllowed
  else .ok ()

/-- Return-value validation (`process_return_data`, call_frame.rs): no
kv-stores; no vaults unless returned from a ResourceRef target. -/
def processReturnData (fromRef : Option SNodeRef) (validated : ScryptoValue) :
    Except RuntimeError Unit :=
  if validated.kvStoreIds ≠ [] then .error .KeyValueStoreNotAllowed
  else
    match fromRef with
    | some (SNodeRef.ResourceRef _) => .ok ()
    | _ => if validated.vaultIds ≠ [] then .error .VaultNotAllowed else .ok ()

/-- Stored-key validation (`verify_stored_key`, call_frame.rs). -/
def verifyStoredKey (value : ScryptoValue) : Except RuntimeError Unit :=
  if value.bucketIds ≠ [] then .error .BucketNotAllowed
  else if value.proofIds ≠ [] then .error .ProofNotAllowed
  else if value.vaultIds ≠ [] then .error .VaultNotAllowed
  else if value.kvStoreIds ≠ [] then .error .KeyValueStoreNotAllowed
  else .ok ()

/-- Child-set update validation (`verify_stored_value_update`,
call_frame.rs). -/
def verifyStoredValueUpdate (old : List ValueId) (missing : List ValueId) :
    Except RuntimeError Unit :=
  match old.find? (fun oldId => ¬ missing.contains oldId) with
  | some oldId => .error (.StoredValueRemoved oldId)
  | none =>
    match missing.find? (fun missingId => ¬ old.contains missingId) with
    | some missingId => .error (.ValueNotFound missingId)
    | none => .ok ()

/-- Taking loop of `take_available_values` (call_frame.rs): each id found in
the owned map is removed and move-checked (and persist-checked when
`persist_only`); a check failure propagates immediately, after the removals
already performed; absent ids accumulate as missing. -/
def takeLoop (persistOnly : Bool) :
    List ValueId → Frame → List (ValueId × REValue) → List ValueId →
    (Except RuntimeError (List (ValueId × REValue) × List ValueId)) × Frame
  | [], fr, taken, missing => (.ok (taken, missing), fr)
  | id :: rest, fr, taken, missing =>
    match alistLookup id fr.ownedValues with
    | some value =>
      let fr' := { fr with ownedValues := alistRemove id fr.ownedValues }
      match value.verifyCanMove with
      | .error e => (.error e, fr')
      | .ok () =>
        if persistOnly then
          match value.verifyCanPersist with
          | .error e => (.error e, fr')
          | .ok () => takeLoop persistOnly rest fr' (taken ++ [(id, value)]) missing
        else takeLoop persistOnly rest fr' (taken ++ [(id, value)]) missing
    | none => takeLoop persistOnly rest fr taken (missing ++ [id])

/-- Visibility purge over a value's descendant paths (`take_available_values`,
call_frame.rs): ValueId hops lose their entries, raw keys are skipped. -/
def purgeDescendantRefs (paths : List AddressPath) (fr : Frame) : Frame :=
  paths.foldl
    (fun acc path =>
      match path with
      | AddressPath.vid valueId =>
        { acc with valueRefs := alistRemove valueId acc.valueRefs }
      | AddressPath.key _ => acc)
    fr

/-- Reference purge of `take_available_values` (call_frame.rs): moved values
and their ValueId descendants lose their visibility entries. -/
def purgeRefs (taken : List (ValueId × REValue)) (fr : Frame) : Frame :=
  taken.foldl
    (fun acc p =>
      purgeDescendantRefs p.2.allDescendants
        { acc with valueRefs := alistRemove p.1 acc.valueRefs })
    fr

/-- Atomic-per-id removal of owned values (`take_available_values`,
call_frame.rs): run the taking loop, then purge references of what was
taken. -/
def takeAvailableValues (fr : Frame) (valueIds : List ValueId) (persistOnly : Bool) :
    (Except RuntimeError (List (ValueId × REValue) × List ValueId)) × Frame :=
  match takeLoop persistOnly valueIds fr [] [] with
  | (.ok (taken, missing), fr1) => (.ok (taken, missing), purgeRefs taken fr1)
  | (.error e, fr1) => (.error e, fr1)

/-- Drop loop over drained owned values (`drop_owned_values`, call_frame.rs). -/
def dropLoop : List (ValueId × REValue) → Except RuntimeError Unit
  | [] => .ok ()
  | (_, value) :: rest =>
    match value.tryDrop with
    | .error e => .error (.DropFailure e)
    | .ok () => dropLoop rest

/-- End-of-frame cleanup (`drop_owned_values`, call_frame.rs): drain the owned
map, failing on the first non-droppable value, then fail if a hosted worktop
is non-empty. The drain empties the owned map even on failure. -/
def dropOwnedValues (fr : Frame) : (Except RuntimeError Unit) × Frame :=
  let fr' := { fr with ownedValues := [] }
  match dropLoop fr.ownedValues with
  | .error e => (.error e, fr')
  | .ok () =>
    match fr.worktop with
    | some worktop =>
      if worktop.isEmpty then (.ok (), fr')
      else (.error (.DropFailure DropFailure.Worktop), fr')
    | none => (.ok (), fr')

/-- Proof restriction on send (`invoke_snode`, call_frame.rs: the
internal-state update applied to each taken value — proofs get
`change_to_restricted`, other variants pass through). -/
def restrictProofForSend : REValue → REValue
  | .Proof proof => .Proof { proof with restricted := true }
  | v => v

/-- HashSet insertion (`HashSet::insert`): append if absent. -/
def hashSetInsert {α : Type} [DecidableEq α] (x : α) (l : List α) : List α :=
  if l.any (fun y => y = x) then l else l ++ [x]

/-- Per-resource shared-lock loop of the AuthZoneRef / WorktopRef arms of
`invoke_snode` (call_frame.rs): each input resource address is share-locked
and recorded in the per-call lock set and the child's visibility table;
NotFound maps to ResourceManagerNotFound, Reentrancy panics. On failure the
locks already taken stay recorded in the track only. -/
def lockInputResources (resourceAddresses : List Nat) (tr : TrackState)
    (locked : List Address) (vrefs : List (ValueId × REValueInfo)) :
    (Except RuntimeError (List Address × List (ValueId × REValueInfo))) × TrackState :=
  match resourceAddresses with
  | [] => (.ok (locked, vrefs), tr)
  | ra :: rest =>
    match tr.takeLock (Address.Resource ra) false with
    | .ok tr' =>
      lockInputResources rest tr'
        (hashSetInsert (Address.Resource ra) locked)
        (alistInsert (ValueId.Resource ra)
          ⟨true, REValueLocation.Track (Address.Resource ra)⟩ vrefs)
    | .error TrackError.NotFound => (.error (.ResourceManagerNotFound ra), tr)
    | .error _ => (.error .Panic, tr)

/-- Release every lock in the per-call set (`invoke_snode`'s success-path
loop over `locked_values`, call_frame.rs). -/
def releaseLockList (locked : List Address) (tr : TrackState) : Except TrackError TrackState :=
  match locked with
  | [] => .ok tr
  | a :: rest =>
    match tr.releaseLock a with
    | .ok tr' => releaseLockList rest tr'
    | .error e => .error e

/-- Outcome of the child frame's `run`: its returned output plus the values it
hands back. The body of `run` dispatches into native modules and wasm code
outside the provided engine sources, so it is abstracted as an input to
`invokeSnode`; `runReturnPhase` below models the part of `run` that the
provided sources do contain. -/
abbrev RunOutcome := Except RuntimeError (ScryptoValue × List (ValueId × REValue))

/-- Cross-frame invocation (`CallFrame::invoke_snode`, call_frame.rs),
restricted to the modelled target variants (the ResourceRef arm, whose
resolution consults the resource manager model outside the provided sources,
is mapped to Panic; no theorem touches it). Mirrors the source order: input
validation; atomic-per-id taking of identified values; missing check; proof
restriction; target resolution with lock acquisition; cost counter and fee
table hand-off; the child run; and — only after a successful run — the
release of the per-call lock set and insertion of received values. Every
modelled target yields an empty method-auth list, so the authorization block
is vacuous. Errors return the mutated frame and track, mirroring `&mut`. -/
def invokeSnode (fr : Frame) (tr : TrackState) (snodeRef : SNodeRef) (input : ScryptoValue)
    (runOutcome : RunOutcome) : (Except RuntimeError ScryptoValue) × Frame × TrackState :=
  match processCallData input with
  | .error e => (.error e, fr, tr)
  | .ok () =>
    match takeAvailableValues fr input.valueIds false with
    | (.error e, fr1) => (.error e, fr1, tr)
    | (.ok (taken, missing), fr1) =>
      match missing with
      | m :: _ => (.error (.ValueNotFound m), fr1, tr)
      | [] =>
        let nextOwnedValues := taken.map (fun p => (p.1, restrictProofForSend p.2))
        let resolved :
            (Except RuntimeError (List Address × List (ValueId × REValueInfo))) × TrackState :=
          match snodeRef with
          | .TransactionProcessor => (.ok ([], []), tr)
          | .PackageStatic => (.ok ([], []), tr)
          | .SystemStatic => (.ok ([], []), tr)
          | .ResourceStatic => (.ok ([], []), tr)
          | .AuthZoneRef =>
            match fr1.authZone with
            | some _ => lockInputResources input.resourceAddresses tr [] []
            | none => (.error .AuthZoneDoesNotExist, tr)
          | .WorktopRef =>
            match fr1.worktop with
            | some _ => lockInputResources input.resourceAddresses tr [] []
            | none => (.error .WorktopDoesNotExist, tr)
          | .ResourceRef _ => (.error .Panic, tr)
        match resolved with
        | (.error e, tr1) => (.error e, fr1, tr1)
        | (.ok (lockedValues, childValueRefs), tr1) =>
          match fr1.costUnitCounter, fr1.feeTable with
          | some costUnitCounter, some feeTable =>
            let _childFrame : Frame :=
              { transactionHash := fr1.transactionHash
                depth := fr1.depth + 1
                ownedValues := nextOwnedValues
                valueRefs := childValueRefs
                worktop :=
                  match snodeRef with
                  | .TransactionProcessor => some ⟨[]⟩
                  | _ => none
                authZone :=
                  match snodeRef with
                  | .TransactionProcessor => some ⟨[]⟩
                  | _ => none
                frameBorrowedValues := []
                costUnitCounter := some costUnitCounter
                feeTable := some feeTable }
            let fr2 := { fr1 with
                         costUnitCounter := some costUnitCounter
                         feeTable := some feeTable }
            match runOutcome with
            | .error e => (.error e, fr2, tr1)
            | .ok (result, receivedValues) =>
              match releaseLockList lockedValues tr1 with
              | .error _ => (.error .Panic, fr2, tr1)
              | .ok tr2 =>
                let fr3 := { fr2 with
                             ownedValues :=
                               receivedValues.foldl (fun m p => alistInsert p.1 p.2 m)
                                 fr2.ownedValues }
                (.ok result, fr3, tr2)
          | _, _ => (.error .Panic, fr1, tr1)

/-- Tail of the child's `run` (call_frame.rs) — the part after the dispatched
body produced `output`: validate the return value, take the returned values
out of the child's owned map, fail on a missing id, clear a hosted auth-zone
(the recursive `invoke_snode` of AuthZone `clear` is modelled by its effect,
emptying the zone), and drop the remaining owned values. -/
def runReturnPhase (fr : Frame) (snodeRef : Option SNodeRef) (output : ScryptoValue) :
    (Except RuntimeError (ScryptoValue × List (ValueId × REValue))) × Frame :=
  match processReturnData snodeRef output with
  | .error e => (.error e, fr)
  | .ok () =>
    match takeAvailableValues fr output.valueIds false with
    | (.error e, fr1) => (.error e, fr1)
    | (.ok (taken, missing), fr1) =>
      match missing with
      | m :: _ => (.error (.ValueNotFound m), fr1)
      | [] =>
        let fr2 :=
          match fr1.authZone with
          | some _ => { fr1 with authZone := some ⟨[]⟩ }
          | none => fr1
        match dropOwnedValues fr2 with
        | (.error e, fr3) => (.error e, fr3)
        | (.ok (), fr3) => (.ok (output, taken), fr3)

/-- Component substate offset (`ComponentOffset`, scrypto prelude). -/
inductive ComponentOffset where
  | State
  | Info
deriving DecidableEq

/-- Substate location addressed by data access (`SubstateAddress`,
call_frame.rs). -/
inductive SubstateAddress where
  | KeyValueEntry (id : Nat) (key : ScryptoValue)
  | NonFungible (resourceAddress : Nat) (id : Nat)
  | Component (addr : Nat) (offset : ComponentOffset)
deriving DecidableEq

/-- The ValueId a SubstateAddress resolves through (`read_value_internal`,
call_frame.rs). -/
def substateAddressValueId : SubstateAddress → ValueId
  | .Component componentAddress _ => ValueId.Component componentAddress
  | .NonFungible resourceAddress _ => ValueId.NonFungibles resourceAddress
  | .KeyValueEntry kvStoreId _ => ValueId.KeyValueStore kvStoreId

/-- Modelled from the spec: `ScryptoValue::from_typed` of a component's
`(package_address, blueprint_name)` info pair; carries no value ids. -/
def scryptoInfoValue (packageAddress blueprintName : Nat) : ScryptoValue :=
  ⟨[packageAddress, blueprintName], [], [], [], [], [], []⟩

/-- Modelled from the spec: the `Option::None` wrapper value produced by
`kv_store_get` on a miss. -/
def scryptoOptionNone : ScryptoValue := ⟨[0], [], [], [], [], [], []⟩

/-- Modelled from the spec: the `Option::Some` wrapper around an in-memory
entry value produced by `kv_store_get`; id extraction over the wrapped dom
keeps the entry's ids. -/
def scryptoOptionSome (v : ScryptoValue) : ScryptoValue := { v with raw := 1 :: v.raw }

/-- Modelled from the spec: the `Option::Some` wrapper around a raw entry blob
fetched from Track; re-extraction of ids from raw bytes is not modelled. -/
def scryptoOptionSomeBytes (bs : Bytes) : ScryptoValue := ⟨1 :: bs, [], [], [], [], [], []⟩

/-- Modelled from the spec: `ScryptoValue::from_typed` of an
`Option<NonFungible>`. -/
def scryptoNonFungibleValue : Option Nat → ScryptoValue
  | none => ⟨[0], [], [], [], [], [], []⟩
  | some n => ⟨[1, n], [], [], [], [], [], []⟩

/-- Modelled from the spec: `NonFungibleId::to_vec`. -/
def nonFungibleIdToVec (n : Nat) : Bytes := [n]

/-- Resolution of an owned-side location to its value (`to_owned_ref_mut` /
`get_child`, call_frame.rs); Track locations resolve through the track, not
here. -/
def resolveOwnedValue (loc : REValueLocation) (fr : Frame) : Option REValue :=
  match loc with
  | .OwnedRoot id => alistLookup id fr.ownedValues
  | .Owned root path => (alistLookup root fr.ownedValues).bind (fun v => v.getChild path)
  | .BorrowedRoot id => alistLookup id fr.frameBorrowedValues
  | .Borrowed root path =>
    (alistLookup root fr.frameBorrowedValues).bind (fun v => v.getChild path)
  | .Track _ => none

/-- Reading the current value at a resolved location (`read_value_internal`'s
read block dispatching through `REValueRefMut`, call_frame.rs): component
state/info, `kv_store_get`, `non_fungible_get`. The `Borrowed` ref-mut arm of
the keyed reads panics in the source. -/
def refReadCurrentValue (loc : REValueLocation) (fr : Frame) (tr : TrackState)
    (address : SubstateAddress) : Except RuntimeError ScryptoValue :=
  match address with
  | .Component _ offset =>
    let maybeComponent : Option Component :=
      match loc with
      | .Track addr =>
        match tr.readValue addr with
        | .ok (SubstateValue.Component c) => some c
        | _ => none
      | .BorrowedRoot id =>
        match alistLookup id fr.frameBorrowedValues with
        | some (REValue.Component c _) => some c
        | _ => none
      | _ =>
        match resolveOwnedValue loc fr with
        | some (REValue.Component c _) => some c
        | _ => none
    match maybeComponent, offset with
    | some c, ComponentOffset.State => .ok c.state
    | some c, ComponentOffset.Info => .ok (scryptoInfoValue c.packageAddress c.blueprintName)
    | none, _ => .error .Panic
  | .KeyValueEntry _ key =>
    match verifyStoredKey key with
    | .error e => .error e
    | .ok () =>
      match loc with
      | .Track addr =>
        match tr.readKeyValue addr key.raw with
        | .ok (SubstateValue.KeyValueStoreEntry none) => .ok scryptoOptionNone
        | .ok (SubstateValue.KeyValueStoreEntry (some bs)) => .ok (scryptoOptionSomeBytes bs)
        | _ => .error .Panic
      | .BorrowedRoot _ => .error .Panic
      | _ =>
        match resolveOwnedValue loc fr with
        | some (REValue.KeyValueStore store _) =>
          match alistLookup key.raw store with
          | some v => .ok (scryptoOptionSome v)
          | none => .ok scryptoOptionNone
        | _ => .error .Panic
  | .NonFungible _ id =>
    match loc with
    | .Track addr =>
      match tr.readKeyValue addr (nonFungibleIdToVec id) with
      | .ok (SubstateValue.NonFungible o) => .ok (scryptoNonFungibleValue o)
      | _ => .error .Panic
    | .BorrowedRoot _ => .error .Panic
    | _ =>
      match resolveOwnedValue loc fr with
      | some (REValue.NonFungibles nfs) => .ok (scryptoNonFungibleValue (alistLookup id nfs))
      | _ => .error .Panic

/-- Identifier resolution and read (`read_value_internal`, call_frame.rs):
resolve through the visibility table, with the ad-hoc escape hatch allowing a
global read of any Component's Info offset — owned components resolve as
OwnedRoot, global ones via a fresh shared Track lock that is released again
after the read. Hidden or unresolvable identifiers fail with
InvalidDataAccess. -/
def readValueInternal (fr : Frame) (tr : TrackState) (address : SubstateAddress) :
    (Except RuntimeError (REValueLocation × ScryptoValue)) × Frame × TrackState :=
  let valueId := substateAddressValueId address
  let lookedUp : Option (REValueInfo × Option Nat) × TrackState :=
    match alistLookup valueId fr.valueRefs with
    | some info => (some (info, none), tr)
    | none =>
      match address with
      | SubstateAddress.Component componentAddress ComponentOffset.Info =>
        if (alistLookup valueId fr.ownedValues).isSome then
          (some (⟨true, REValueLocation.OwnedRoot valueId⟩, none), tr)
        else
          match tr.takeLock (Address.GlobalComponent componentAddress) false with
          | .ok tr' =>
            (some (⟨true, REValueLocation.Track (Address.GlobalComponent componentAddress)⟩,
               some componentAddress), tr')
          | .error _ => (none, tr)
      | _ => (none, tr)
  match lookedUp with
  | (none, tr1) => (.error (.InvalidDataAccess valueId), fr, tr1)
  | (some (info, addressBorrowed), tr1) =>
    if info.visible then
      match refReadCurrentValue info.location fr tr1 address with
      | .error e => (.error e, fr, tr1)
      | .ok currentValue =>
        match addressBorrowed with
        | some componentAddress =>
          match tr1.releaseLock (Address.GlobalComponent componentAddress) with
          | .ok tr2 => (.ok (info.location, currentValue), fr, tr2)
          | .error _ => (.error .Panic, fr, tr1)
        | none => (.ok (info.location, currentValue), fr, tr1)
    else (.error (.InvalidDataAccess valueId), fr, tr1)

/-- Child-visibility extension loop of `read_value_data` (call_frame.rs):
every value id found in the read value gets a location under the parent, but
only kv-store children become visible. -/
def extendChildRefs (address : SubstateAddress) (parentLocation : REValueLocation) :
    List ValueId → Frame → (Except RuntimeError Unit) × Frame
  | [], fr => (.ok (), fr)
  | childId :: rest, fr =>
    let childLocation? : Option REValueLocation :=
      match address with
      | .Component _ _ => parentLocation.child (.vid childId)
      | .NonFungible _ _ => parentLocation.child (.vid childId)
      | .KeyValueEntry _ key =>
        (parentLocation.child (.key key.raw)).bind (fun l => l.child (.vid childId))
    match childLocation? with
    | none => (.error .Panic, fr)
    | some childLocation =>
      let visible :=
        match childId with
        | ValueId.KeyValueStore _ => true
        | _ => false
      extendChildRefs address parentLocation rest
        { fr with valueRefs := alistInsert childId ⟨visible, childLocation⟩ fr.valueRefs }

/-- Data read over a SubstateAddress (`read_value_data`, call_frame.rs):
`read_value_internal`, then extend the readable space with discovered
children. -/
def readValueData (fr : Frame) (tr : TrackState) (address : SubstateAddress) :
    (Except RuntimeError ScryptoValue) × Frame × TrackState :=
  match readValueInternal fr tr address with
  | (.error e, fr1, tr1) => (.error e, fr1, tr1)
  | (.ok (parentLocation, currentValue), fr1, tr1) =>
    match extendChildRefs address parentLocation currentValue.valueIds fr1 with
    | (.error e, fr2) => (.error e, fr2, tr1)
    | (.ok (), fr2) => (.ok currentValue, fr2, tr1)

/-- Complex value under creation (`REComplexValue`, values.rs). -/
inductive REComplexValue where
  | Component (component : Component)

/-- Declared children of a complex value (`REComplexValue::get_children`,
values.rs): the value ids of the decoded state blob. -/
def REComplexValue.getChildren : REComplexValue → Except RuntimeError (List ValueId)
  | .Component component => .ok component.state.valueIds

/-- Assembly of a complex value with its adopted children
(`REComplexValue::into_re_value`, values.rs). -/
def REComplexValue.intoReValue : REComplexValue → List (ValueId × REValue) → REValue
  | .Component component, children =>
    .Component component (children.map (fun p => (AddressPath.vid p.1, p.2)))

/-- Primitive value under creation (`REPrimitiveValue`, values.rs). -/
inductive REPrimitiveValue where
  | Package (package : Nat)
  | Bucket (bucket : Bucket)
  | Proof (proof : Proof)
  | KeyValue (store : List (Bytes × ScryptoValue))
  | Resource (resourceManager : Nat)
  | NonFungibles (resourceAddress : Nat) (nonFungibles : List (Nat × Nat))
  | Vault (vault : Nat)

/-- Conversion of a primitive into an REValue (`Into<REValue> for
REPrimitiveValue`, values.rs); a fresh kv-store starts with no children. -/
def REPrimitiveValue.intoReValue : REPrimitiveValue → REValue
  | .Resource r => .Resource r
  | .NonFungibles _ nfs => .NonFungibles nfs
  | .Package p => .Package p
  | .Bucket b => .Bucket b
  | .Proof p => .Proof p
  | .KeyValue store => .KeyValueStore store []
  | .Vault v => .Vault v

/-- Creation payload split by complexity (`REValueByComplexity`, values.rs). -/
inductive REValueByComplexity where
  | Primitive (v : REPrimitiveValue)
  | Complex (v : REComplexValue)

/-- Fresh id allocation for a created value (`create_value`'s id match,
call_frame.rs, through the Track's allocator): every kind draws from the
allocator except NonFungibles, which reuses its resource address. -/
def allocValueId (tr : TrackState) (v : REValueByComplexity) : ValueId × TrackState :=
  let bumped := { tr with idCounter := tr.idCounter + 1 }
  match v with
  | .Primitive (.Bucket _) => (ValueId.Bucket tr.idCounter, bumped)
  | .Primitive (.Proof _) => (ValueId.Proof tr.idCounter, bumped)
  | .Primitive (.Vault _) => (ValueId.Vault tr.idCounter, bumped)
  | .Primitive (.KeyValue _) => (ValueId.KeyValueStore tr.idCounter, bumped)
  | .Primitive (.Package _) => (ValueId.Package tr.idCounter, bumped)
  | .Primitive (.Resource _) => (ValueId.Resource tr.idCounter, bumped)
  | .Primitive (.NonFungibles resourceAddress _) => (ValueId.NonFungibles resourceAddress, tr)
  | .Complex (.Component _) => (ValueId.Component tr.idCounter, bumped)

/-- Value creation (`create_value`, call_frame.rs): allocate the id; a complex
value takes its declared children out of the creating frame (move- and
persist-checked), failing on a missing child; the new value enters the owned
map; kv-stores, resources and non-fungibles also get an OwnedRoot visibility
entry. -/
def createValue (fr : Frame) (tr : TrackState) (v : REValueByComplexity) :
    (Except RuntimeError ValueId) × Frame × TrackState :=
  let (id, tr1) := allocValueId tr v
  match v with
  | .Primitive primitive =>
    let fr1 := { fr with ownedValues := alistInsert id primitive.intoReValue fr.ownedValues }
    let fr2 :=
      match id with
      | ValueId.KeyValueStore _ =>
        { fr1 with valueRefs := alistInsert id ⟨true, REValueLocation.OwnedRoot id⟩ fr1.valueRefs }
      | ValueId.Resource _ =>
        { fr1 with valueRefs := alistInsert id ⟨true, REValueLocation.OwnedRoot id⟩ fr1.valueRefs }
      | ValueId.NonFungibles _ =>
        { fr1 with valueRefs := alistInsert id ⟨true, REValueLocation.OwnedRoot id⟩ fr1.valueRefs }
      | _ => fr1
    (.ok id, fr2, tr1)
  | .Complex complex =>
    match complex.getChildren with
    | .error e => (.error e, fr, tr1)
    | .ok children =>
      match takeAvailableValues fr children true with
      | (.error e, fr1) => (.error e, fr1, tr1)
      | (.ok (childValues, missing), fr1) =>
        match missing with
        | m :: _ => (.error (.ValueNotFound m), fr1, tr1)
        | [] =>
          let reValue := complex.intoReValue childValues
          let fr2 := { fr1 with ownedValues := alistInsert id reValue fr1.ownedValues }
          (.ok id, fr2, tr1)

/-- Modelled from the spec: the well-known ECDSA virtual token resource
address (`ECDSA_TOKEN`). -/
def ECDSA_TOKEN : Nat := 1

/-- Sorted insertion without duplication, modelling `BTreeSet` insertion over
non-fungible ids. -/
def sortedInsert (n : Nat) : List Nat → List Nat
  | [] => [n]
  | m :: rest =>
    if n < m then n :: m :: rest
    else if n = m then m :: rest
    else m :: sortedInsert n rest

/-- BTreeSet built from a list (`collect::<BTreeSet<_>>`): sorted distinct
elements. -/
def btreeSetOfList (l : List Nat) : List Nat := l.foldl (fun acc k => sortedInsert k acc) []

/-- Modelled from the spec: `Bucket::create_proof` — a proof over the bucket's
resource containing its non-fungible ids, initially unrestricted. -/
def Bucket.createProof (b : Bucket) : Proof :=
  { resourceAddress := b.resourceAddress
    restricted := false
    nonFungibleIds := b.nonFungibleIds }

/-- Root frame construction (`CallFrame::new_root`, call_frame.rs): the
signer public keys become a BTreeSet of non-fungible ids
(`NonFungibleId::from_bytes` is modelled as the identity); when non-empty, a
non-fungible ECDSA_TOKEN bucket over those ids yields the single initial
auth-zone proof — no proof is created for an empty signer set since proofs
cannot have zero amount; depth is 0 and the worktop starts empty. -/
def newRoot (transactionHash : Nat) (signerPublicKeys : List Nat)
    (costUnitCounter feeTable : Nat) : Frame :=
  let signerNonFungibleIds := btreeSetOfList signerPublicKeys
  let initialAuthZoneProofs : List Proof :=
    if signerNonFungibleIds.isEmpty then []
    else
      let ecdsaBucket : Bucket :=
        { resourceAddress := ECDSA_TOKEN, locked := false
          nonFungibleIds := signerNonFungibleIds }
      [ecdsaBucket.createProof]
  { transactionHash := transactionHash
    depth := 0
    ownedValues := []
    valueRefs := []
    worktop := some ⟨[]⟩
    authZone := some ⟨initialAuthZoneProofs⟩
    frameBorrowedValues := []
    costUnitCounter := some costUnitCounter
    feeTable := some feeTable }

theorem alistLookup_insert_self {α β : Type} [DecidableEq α] (k : α) (v : β)
    (l : List (α × β)) : alistLookup k (alistInsert k v l) = some v := by
  induction l with
  | nil => simp [alistInsert, alistLookup]
  | cons p rest ih =>
    by_cases h : p.1 = k
    · simp [alistInsert, alistLookup, h]
    · simp [alistInsert, alistLookup, h, ih]

theorem alistLookup_insert_ne {α β : Type} [DecidableEq α] {k k' : α} (v : β)
    (l : List (α × β)) (h : k' ≠ k) :
    alistLookup k' (alistInsert k v l) = alistLookup k' l := by
  have hkk' : ¬ k = k' := fun hh => h hh.symm
  induction l with
  | nil => simp [alistInsert, alistLookup, hkk']
  | cons p rest ih =>
    by_cases hp : p.1 = k
    · have hpk' : ¬ p.1 = k' := by rw [hp]; exact hkk'
      simp only [alistInsert, if_pos hp, alistLookup]
      rw [if_neg hkk', if_neg hpk']
    · simp only [alistInsert, if_neg hp, alistLookup]
      by_cases hp' : p.1 = k'
      · rw [if_pos hp', if_pos hp']
      · rw [if_neg hp', if_neg hp', ih]

theorem alistLookup_remove_self {α β : Type} [DecidableEq α] (k : α) (l : List (α × β)) :
    alistLookup k (alistRemove k l) = none := by
  induction l with
  | nil => simp [alistRemove, alistLookup]
  | cons p rest ih =>
    by_cases h : p.1 = k
    · simp [alistRemove, h, ih]
    · simp [alistRemove, h, alistLookup, ih]

theorem alistLookup_remove_ne {α β : Type} [DecidableEq α] {k k' : α}
    (l : List (α × β)) (h : k' ≠ k) :
    alistLookup k' (alistRemove k l) = alistLookup k' l := by
  induction l with
  | nil => simp [alistRemove]
  | cons p rest ih =>
    by_cases hp : p.1 = k
    · have hpk' : ¬ p.1 = k' := by rw [hp]; exact fun hh => h hh.symm
      rw [show alistRemove k (p :: rest) = alistRemove k rest by simp [alistRemove, hp], ih]
      simp [alistLookup, hpk']
    · rw [show alistRemove k (p :: rest) = p :: alistRemove k rest by simp [alistRemove, hp]]
      by_cases hp' : p.1 = k'
      · simp [alistLookup, hp']
      · simp [alistLookup, hp', ih]

theorem alistLookup_remove_of_none {α β : Type} [DecidableEq α] {k k' : α}
    {l : List (α × β)} (h : alistLookup k' l = none) :
    alistLookup k' (alistRemove k l) = none := by
  by_cases hk : k' = k
  · subst hk; exact alistLookup_remove_self k' l
  · rw [alistLookup_remove_ne l hk]; exact h

theorem alistInsert_of_lookup_none {α β : Type} [DecidableEq α] {k : α} (v : β)
    {l : List (α × β)} (h : alistLookup k l = none) :
    alistInsert k v l = l ++ [(k, v)] := by
  induction l with
  | nil => simp [alistInsert]
  | cons p rest ih =>
    by_cases hp : p.1 = k
    · simp [alistLookup, hp] at h
    · simp only [alistLookup, if_neg hp] at h
      simp [alistInsert, hp, ih h]

theorem alistRemove_of_lookup_none {α β : Type} [DecidableEq α] {k : α}
    {l : List (α × β)} (h : alistLookup k l = none) :
    alistRemove k l = l := by
  induction l with
  | nil => simp [alistRemove]
  | cons p rest ih =>
    by_cases hp : p.1 = k
    · simp [alistLookup, hp] at h
    · simp only [alistLookup, if_neg hp] at h
      simp [alistRemove, hp, ih h]

theorem alistRemove_append {α β : Type} [DecidableEq α] (k : α) (l1 l2 : List (α × β)) :
    alistRemove k (l1 ++ l2) = alistRemove k l1 ++ alistRemove k l2 := by
  induction l1 with
  | nil => simp [alistRemove]
  | cons p rest ih =>
    by_cases hp : p.1 = k
    · simp [alistRemove, hp, ih]
    · simp [alistRemove, hp, ih]

theorem alistRemove_insert_cancel {α β : Type} [DecidableEq α] {k : α} (v : β)
    {l : List (α × β)} (h : alistLookup k l = none) :
    alistRemove k (alistInsert k v l) = l := by
  rw [alistInsert_of_lookup_none v h, alistRemove_append, alistRemove_of_lookup_none h]
  simp [alistRemove]

theorem indexOfKey_eq_none_iff {α β : Type} [DecidableEq α] (k : α) (l : List (α × β)) :
    indexOfKey k l = none ↔ alistLookup k l = none := by
  induction l with
  | nil => simp [indexOfKey, alistLookup]
  | cons p rest ih =>
    by_cases hp : p.1 = k
    · simp [indexOfKey, alistLookup, hp]
    · simpa [indexOfKey, alistLookup, hp] using ih

theorem indexMapSwapRemove_of_lookup_none {α β : Type} [DecidableEq α] {k : α}
    {l : List (α × β)} (h : alistLookup k l = none) :
    indexMapSwapRemove k l = (none, l) := by
  unfold indexMapSwapRemove
  rw [(indexOfKey_eq_none_iff k l).mpr h]

theorem indexMapSwapRemove_of_lookup_some {α β : Type} [DecidableEq α] {k : α} {v : β}
    {l : List (α × β)} (h : alistLookup k l = some v) :
    ∃ rest, indexMapSwapRemove k l = (some v, rest) := by
  unfold indexMapSwapRemove
  have hne : l ≠ [] := by
    intro hnil
    subst hnil
    simp [alistLookup] at h
  cases hidx : indexOfKey k l with
  | none =>
    rw [indexOfKey_eq_none_iff] at hidx
    rw [hidx] at h
    cases h
  | some i =>
    cases hlast : l.getLast? with
    | none => exact absurd (List.getLast?_eq_none_iff.mp hlast) hne
    | some last =>
      by_cases hlen : i + 1 = l.length
      · exact ⟨l.dropLast, by rw [h]; simp [hlen]⟩
      · exact ⟨(l.set i last).dropLast, by rw [h]; simp [hlen]⟩

theorem foldl_push_map {α β : Type} (f : α → β) (l : List α) (init : List β) :
    l.foldl (fun acc x => acc ++ [f x]) init = init ++ l.map f := by
  induction l generalizing init with
  | nil => simp
  | cons x xs ih => rw [List.foldl_cons, ih]; simp

/-- C7: `Track::to_receipt` emits exactly the Down operations in downed order,
then the VirtualDown operations in recording order, then the Up operations in
staging order, then the VirtualUp operations in space-creation order, and
carries the new addresses and the logs. -/
theorem c7_to_receipt_order (t : TrackState) :
    t.toReceipt =
      { borrowed := ⟨t.borrowedSubstates.map Prod.fst⟩
        newAddresses := t.newAddresses
        logs := t.logs
        substates :=
          ⟨t.downedSubstates.map SubstateOperation.Down ++
           t.downVirtualSubstates.map SubstateOperation.VirtualDown ++
           t.upSubstates.map (fun p => SubstateOperation.Up p.1 p.2.encode) ++
           t.upVirtualSubstateSpace.map SubstateOperation.VirtualUp⟩ } := by
  simp [TrackState.toReceipt, foldl_push_map, List.append_assoc]

/-- C6: `Track::set_key_value(parent, key, value)` — when the keyed substate
is already staged, nothing is downed; when not staged and a prior version
exists in the store, its physical id is recorded as a down; when not staged
and absent from the store, a virtual down against the parent space is
recorded; in every case the new value is installed as the up-substate for the
key. -/
theorem c6_set_key_value_spec (t : TrackState) (parent : Address) (key : Bytes)
    (value : SubstateValue) :
    (∀ staged, alistLookup (parent.encode ++ key) t.upSubstates = some staged →
      ∃ t', t.setKeyValue parent key value = .ok t' ∧
        t'.downedSubstates = t.downedSubstates ∧
        t'.downVirtualSubstates = t.downVirtualSubstates ∧
        alistLookup (parent.encode ++ key) t'.upSubstates = some value) ∧
    (alistLookup (parent.encode ++ key) t.upSubstates = none →
      (∀ s, t.store.getSubstate (parent.encode ++ key) = some s →
        ∃ t', t.setKeyValue parent key value = .ok t' ∧
          t'.downedSubstates = t.downedSubstates ++ [s.physId] ∧
          t'.downVirtualSubstates = t.downVirtualSubstates ∧
          alistLookup (parent.encode ++ key) t'.upSubstates = some value) ∧
      (t.store.getSubstate (parent.encode ++ key) = none →
        ∀ parentId, t.getSubstateParentId parent.encode = .ok parentId →
          ∃ t', t.setKeyValue parent key value = .ok t' ∧
            t'.downedSubstates = t.downedSubstates ∧
            t'.downVirtualSubstates = t.downVirtualSubstates ++ [⟨parentId, key⟩] ∧
            alistLookup (parent.encode ++ key) t'.upSubstates = some value)) := by
  refine ⟨?_, fun hnone => ⟨?_, ?_⟩⟩
  · intro staged hstaged
    obtain ⟨rest, hsw⟩ := indexMapSwapRemove_of_lookup_some hstaged
    exact ⟨{ t with upSubstates := alistInsert (parent.encode ++ key) value rest },
      by simp [TrackState.setKeyValue, hsw], rfl, rfl, alistLookup_insert_self _ _ _⟩
  · intro s hs
    exact ⟨{ t with
             downedSubstates := t.downedSubstates ++ [s.physId]
             upSubstates := alistInsert (parent.encode ++ key) value t.upSubstates },
      by simp [TrackState.setKeyValue, indexMapSwapRemove_of_lookup_none hnone, hs],
      rfl, rfl, alistLookup_insert_self _ _ _⟩
  · intro hsnone parentId hpid
    exact ⟨{ t with
             downVirtualSubstates := t.downVirtualSubstates ++ [⟨parentId, key⟩]
             upSubstates := alistInsert (parent.encode ++ key) value t.upSubstates },
      by simp [TrackState.setKeyValue, indexMapSwapRemove_of_lookup_none hnone, hsnone, hpid],
      rfl, rfl, alistLookup_insert_self _ _ _⟩

/-- C3: `Track::take_lock` with mutable=true on an already borrowed address
(in any mode) is Reentrancy; a shared take on a shared borrow increments the
read count; `Track::release_lock` on a shared borrow decrements the count,
re-entering the value into the up-substates exactly when the count reaches
zero; and two shared locks on the same address succeed and release
independently, the value re-entering the up-substates only after the second
release. -/
theorem c3_take_release_lock_semantics :
    (∀ (t : TrackState) (a : Address) (b : BorrowedSubstate),
      alistLookup a.encode t.upSubstates = none →
      alistLookup a t.borrowedSubstates = some b →
      t.takeLock a true = .error .Reentrancy) ∧
    (∀ (t : TrackState) (a : Address) (v : SubstateValue) (c : Nat),
      alistLookup a.encode t.upSubstates = none →
      alistLookup a t.borrowedSubstates = some (.Loaded v c) →
      ∃ t', t.takeLock a false = .ok t' ∧
        alistLookup a t'.borrowedSubstates = some (.Loaded v (c + 1)) ∧
        t'.upSubstates = t.upSubstates) ∧
    (∀ (t : TrackState) (a : Address) (v : SubstateValue) (c : Nat),
      alistLookup a t.borrowedSubstates = some (.Loaded v (c + 1)) →
      ∃ t', t.releaseLock a = .ok t' ∧
        (c = 0 →
          alistLookup a t'.borrowedSubstates = none ∧
          alistLookup a.encode t'.upSubstates = some v) ∧
        (c ≠ 0 →
          alistLookup a t'.borrowedSubstates = some (.Loaded v c) ∧
          t'.upSubstates = t.upSubstates)) ∧
    (∀ (t : TrackState) (r rm : Nat) (pid : PhysicalSubstateId),
      alistLookup (Address.Resource r).encode t.upSubstates = none →
      alistLookup (Address.Resource r) t.borrowedSubstates = none →
      t.store.getSubstate (Address.Resource r).encode =
        some ⟨SubstateValue.Resource rm, pid⟩ →
      ∃ t1 t2 t3 t4,
        t.takeLock (Address.Resource r) false = .ok t1 ∧
        t1.takeLock (Address.Resource r) false = .ok t2 ∧
        alistLookup (Address.Resource r) t2.borrowedSubstates =
          some (.Loaded (SubstateValue.Resource rm) 2) ∧
        t2.releaseLock (Address.Resource r) = .ok t3 ∧
        alistLookup (Address.Resource r) t3.borrowedSubstates =
          some (.Loaded (SubstateValue.Resource rm) 1) ∧
        t3.releaseLock (Address.Resource r) = .ok t4 ∧
        alistLookup (Address.Resource r) t4.borrowedSubstates = none ∧
        alistLookup (Address.Resource r).encode t4.upSubstates =
          some (SubstateValue.Resource rm)) := by
  refine ⟨?_, ?_, ?_, ?_⟩
  · intro t a b hup hbor
    simp [TrackState.takeLock, indexMapSwapRemove_of_lookup_none hup, hbor]
  · intro t a v c hup hbor
    exact ⟨{ t with
             borrowedSubstates := alistInsert a (.Loaded v (c + 1)) t.borrowedSubstates },
      by simp [TrackState.takeLock, indexMapSwapRemove_of_lookup_none hup, hbor],
      alistLookup_insert_self _ _ _, rfl⟩
  · intro t a v c hbor
    by_cases hc : c = 0
    · subst hc
      exact ⟨{ t with
               borrowedSubstates := alistRemove a t.borrowedSubstates
               upSubstates := alistInsert a.encode v t.upSubstates },
        by simp [TrackState.releaseLock, hbor],
        fun _ => ⟨alistLookup_remove_self _ _, alistLookup_insert_self _ _ _⟩,
        fun hne => absurd rfl hne⟩
    · exact ⟨{ t with
               borrowedSubstates :=
                 alistInsert a (.Loaded v c) (alistRemove a t.borrowedSubstates) },
        by simp [TrackState.releaseLock, hbor, hc],
        fun heq => absurd heq hc,
        fun _ => ⟨alistLookup_insert_self _ _ _, rfl⟩⟩
  · intro t r rm pid hup hbor hstore
    have h1 : t.takeLock (Address.Resource r) false = .ok
        { t with
          downedSubstates := t.downedSubstates ++ [pid]
          borrowedSubstates :=
            alistInsert (Address.Resource r) (.Loaded (SubstateValue.Resource rm) 1)
              t.borrowedSubstates } := by
      simp [TrackState.takeLock, indexMapSwapRemove_of_lookup_none hup, hbor, hstore,
        BorrowedSubstate.loaded]
    have h2 : TrackState.takeLock
        { t with
          downedSubstates := t.downedSubstates ++ [pid]
          borrowedSubstates :=
            alistInsert (Address.Resource r) (.Loaded (SubstateValue.Resource rm) 1)
              t.borrowedSubstates } (Address.Resource r) false = .ok
        { t with
          downedSubstates := t.downedSubstates ++ [pid]
          borrowedSubstates :=
            alistInsert (Address.Resource r) (.Loaded (SubstateValue.Resource rm) 2)
              (alistInsert (Address.Resource r) (.Loaded (SubstateValue.Resource rm) 1)
                t.borrowedSubstates) } := by
      simp [TrackState.takeLock, indexMapSwapRemove_of_lookup_none hup,
        alistLookup_insert_self]
    have h3 : TrackState.releaseLock
        { t with
          downedSubstates := t.downedSubstates ++ [pid]
          borrowedSubstates :=
            alistInsert (Address.Resource r) (.Loaded (SubstateValue.Resource rm) 2)
              (alistInsert (Address.Resource r) (.Loaded (SubstateValue.Resource rm) 1)
                t.borrowedSubstates) } (Address.Resource r) = .ok
        { t with
          downedSubstates := t.downedSubstates ++ [pid]
          borrowedSubstates :=
            alistInsert (Address.Resource r) (.Loaded (SubstateValue.Resource rm) 1)
              (alistRemove (Address.Resource r)
                (alistInsert (Address.Resource r) (.Loaded (SubstateValue.Resource rm) 2)
                  (alistInsert (Address.Resource r) (.Loaded (SubstateValue.Resource rm) 1)
                    t.borrowedSubstates))) } := by
      simp [TrackState.releaseLock, alistLookup_insert_self]
    have h4 : TrackState.releaseLock
        { t with
          downedSubstates := t.downedSubstates ++ [pid]
          borrowedSubstates :=
            alistInsert (Address.Resource r) (.Loaded (SubstateValue.Resource rm) 1)
              (alistRemove (Address.Resource r)
                (alistInsert (Address.Resource r) (.Loaded (SubstateValue.Resource rm) 2)
                  (alistInsert (Address.Resource r) (.Loaded (SubstateValue.Resource rm) 1)
                    t.borrowedSubstates))) } (Address.Resource r) = .ok
        { t with
          downedSubstates := t.downedSubstates ++ [pid]
          borrowedSubstates :=
            alistRemove (Address.Resource r)
              (alistInsert (Address.Resource r) (.Loaded (SubstateValue.Resource rm) 1)
                (alistRemove (Address.Resource r)
                  (alistInsert (Address.Resource r) (.Loaded (SubstateValue.Resource rm) 2)
                    (alistInsert (Address.Resource r) (.Loaded (SubstateValue.Resource rm) 1)
                      t.borrowedSubstates))))
          upSubstates :=
            alistInsert (Address.Resource r).encode (SubstateValue.Resource rm)
              t.upSubstates } := by
      simp [TrackState.releaseLock, alistLookup_insert_self]
    exact ⟨_, _, _, _, h1, h2, alistLookup_insert_self _ _ _, h3,
      alistLookup_insert_self _ _ _, h4, alistLookup_remove_self _ _,
      alistLookup_insert_self _ _ _⟩

/-- C3 witness: on a concrete track holding a shared borrow of resource 7, a
mutable take is Reentrancy, by the lock-semantics theorem. -/
theorem c3_take_release_lock_semantics_witness :
    (TrackState.mk ⟨fun _ => none, fun _ => none⟩ 0 0 [] []
        [(Address.Resource 7, BorrowedSubstate.Loaded (SubstateValue.Resource 42) 1)]
        [] [] [] []).takeLock (Address.Resource 7) true = .error .Reentrancy :=
  c3_take_release_lock_semantics.1 _ (Address.Resource 7)
    (BorrowedSubstate.Loaded (SubstateValue.Resource 42) 1) rfl rfl

/-- C6 witness: on a concrete empty track whose store exposes only the parent
space, writing a non-fungible entry records a virtual down and installs the
up-substate, by the set-key-value theorem. -/
theorem c6_set_key_value_spec_witness :
    ∃ t', (TrackState.mk
        ⟨fun _ => none, fun bs => if bs = [0, 7, 0] then some ⟨2, 0⟩ else none⟩
        0 0 [] [] [] [] [] [] []).setKeyValue (Address.NonFungibleSet 7) [9]
        (SubstateValue.NonFungible (some 5)) = .ok t' ∧
      t'.downVirtualSubstates = [⟨SubstateParentId.Exists ⟨2, 0⟩, [9]⟩] ∧
      alistLookup ((Address.NonFungibleSet 7).encode ++ [9]) t'.upSubstates =
        some (SubstateValue.NonFungible (some 5)) := by
  obtain ⟨t', h1, _, h3, h4⟩ :=
    ((c6_set_key_value_spec
        (TrackState.mk
          ⟨fun _ => none, fun bs => if bs = [0, 7, 0] then some ⟨2, 0⟩ else none⟩
          0 0 [] [] [] [] [] [] [])
        (Address.NonFungibleSet 7) [9] (SubstateValue.NonFungible (some 5))).2 rfl).2
      rfl (SubstateParentId.Exists ⟨2, 0⟩) (by rfl)
  exact ⟨t', h1, by simpa using h3, h4⟩

theorem dropLoop_all_proofs (l : List (ValueId × REValue))
    (h : ∀ p ∈ l, ∃ prf, p.2 = REValue.Proof prf) : dropLoop l = .ok () := by
  induction l with
  | nil => rfl
  | cons p rest ih =>
    obtain ⟨prf, hp⟩ := h p (by simp)
    obtain ⟨id, v⟩ := p
    simp only at hp
    subst hp
    simpa [dropLoop, REValue.tryDrop] using ih (fun q hq => h q (by simp [hq]))

/-- C5 (amended): at end of frame, a remaining Package / Vault /
KeyValueStore / Component / Bucket / Resource fails `try_drop` with the
DropFailure of the same name, while a remaining NonFungibles value fails with
`DropFailure::Resource`; a remaining Proof is dropped silently; a frame whose
owned values all drop but whose hosted worktop is non-empty fails with
`DropFailure::Worktop`, and with only proofs owned and an empty or absent
worktop the frame drop succeeds. -/
theorem c5_drop_discipline :
    (∀ p, (REValue.Package p).tryDrop = .error DropFailure.Package) ∧
    (∀ v, (REValue.Vault v).tryDrop = .error DropFailure.Vault) ∧
    (∀ s ch, (REValue.KeyValueStore s ch).tryDrop = .error DropFailure.KeyValueStore) ∧
    (∀ c ch, (REValue.Component c ch).tryDrop = .error DropFailure.Component) ∧
    (∀ b, (REValue.Bucket b).tryDrop = .error DropFailure.Bucket) ∧
    (∀ r, (REValue.Resource r).tryDrop = .error DropFailure.Resource) ∧
    (∀ m, (REValue.NonFungibles m).tryDrop = .error DropFailure.Resource) ∧
    (∀ pr, (REValue.Proof pr).tryDrop = .ok ()) ∧
    (∀ (fr : Frame) id v k rest, fr.ownedValues = (id, v) :: rest →
      v.tryDrop = .error k →
      (dropOwnedValues fr).1 = .error (.DropFailure k)) ∧
    (∀ (fr : Frame) w, (∀ p ∈ fr.ownedValues, ∃ prf, p.2 = REValue.Proof prf) →
      fr.worktop = some w → w.isEmpty = false →
      (dropOwnedValues fr).1 = .error (.DropFailure DropFailure.Worktop)) ∧
    (∀ fr : Frame, (∀ p ∈ fr.ownedValues, ∃ prf, p.2 = REValue.Proof prf) →
      (fr.worktop = none ∨ ∃ w, fr.worktop = some w ∧ w.isEmpty = true) →
      (dropOwnedValues fr).1 = .ok ()) := by
  refine ⟨fun _ => rfl, fun _ => rfl, fun _ _ => rfl, fun _ _ => rfl, fun _ => rfl,
    fun _ => rfl, fun _ => rfl, fun _ => rfl, ?_, ?_, ?_⟩
  · intro fr id v k rest hfr hv
    simp [dropOwnedValues, hfr, dropLoop, hv]
  · intro fr w hproofs hw hne
    simp [dropOwnedValues, dropLoop_all_proofs _ hproofs, hw, hne]
  · intro fr hproofs hw
    rcases hw with hnone | ⟨w, hsome, hempty⟩
    · simp [dropOwnedValues, dropLoop_all_proofs _ hproofs, hnone]
    · simp [dropOwnedValues, dropLoop_all_proofs _ hproofs, hsome, hempty]

/-- C5 witness: a frame owning one vault fails its end-of-frame drop with
`DropFailure::Vault`, and a frame owning one proof with a non-empty worktop
fails with `DropFailure::Worktop`, by the drop-discipline theorem. -/
theorem c5_drop_discipline_witness :
    (dropOwnedValues
      (Frame.mk 0 0 [(ValueId.Vault 4, REValue.Vault 9)] [] none none [] none none)).1 =
      .error (.DropFailure DropFailure.Vault) ∧
    (dropOwnedValues
      (Frame.mk 0 0 [(ValueId.Proof 1, REValue.Proof ⟨2, false, []⟩)] []
        (some ⟨[⟨5, false, [1]⟩]⟩) none [] none none)).1 =
      .error (.DropFailure DropFailure.Worktop) :=
  ⟨c5_drop_discipline.2.2.2.2.2.2.2.2.1 _ (ValueId.Vault 4) (REValue.Vault 9)
      DropFailure.Vault [] rfl rfl,
   c5_drop_discipline.2.2.2.2.2.2.2.2.2.1 _ ⟨[⟨5, false, [1]⟩]⟩
      (fun p hp => ⟨⟨2, false, []⟩, by rw [List.mem_singleton.mp hp]⟩)
      rfl rfl⟩

/-- C5 counterexample: dropping a NonFungibles value and dropping a Resource
value produce the same DropFailure kind (`Resource`), so distinct listed value
kinds do not fail with distinct corresponding kinds. -/
theorem c5_nonfungibles_drop_kind_shared :
    (REValue.NonFungibles []).tryDrop = .error DropFailure.Resource ∧
    (REValue.Resource 0).tryDrop = .error DropFailure.Resource ∧
    DropFailure.Resource ≠ DropFailure.Vault :=
  ⟨rfl, rfl, by decide⟩

theorem mem_sortedInsert (n k : Nat) (l : List Nat) :
    k ∈ sortedInsert n l ↔ k = n ∨ k ∈ l := by
  induction l with
  | nil => simp [sortedInsert]
  | cons m rest ih =>
    by_cases h1 : n < m
    · rw [show sortedInsert n (m :: rest) = n :: m :: rest from by simp [sortedInsert, h1]]
      exact List.mem_cons
    · by_cases h2 : n = m
      · rw [show sortedInsert n (m :: rest) = m :: rest from by simp [sortedInsert, h1, h2]]
        subst h2
        constructor
        · exact Or.inr
        · rintro (rfl | h)
          · exact List.mem_cons_self _ _
          · exact h
      · rw [show sortedInsert n (m :: rest) = m :: sortedInsert n rest from by
          simp [sortedInsert, h1, h2]]
        simp only [List.mem_cons, ih]
        tauto

theorem sortedInsert_length_of_not_mem {n : Nat} {l : List Nat} (h : n ∉ l) :
    (sortedInsert n l).length = l.length + 1 := by
  induction l with
  | nil => simp [sortedInsert]
  | cons m rest ih =>
    have hnm : ¬ n = m := fun hh => h (by simp [hh])
    by_cases h1 : n < m
    · simp [sortedInsert, h1]
    · have := ih (fun hh => h (by simp [hh]))
      simp [sortedInsert, h1, hnm, this]

theorem mem_btree_foldl (keys : List Nat) :
    ∀ (acc : List Nat) (k : Nat),
      k ∈ keys.foldl (fun a k' => sortedInsert k' a) acc ↔ k ∈ acc ∨ k ∈ keys := by
  induction keys with
  | nil => simp
  | cons key rest ih =>
    intro acc k
    rw [List.foldl_cons, ih (sortedInsert key acc) k, mem_sortedInsert]
    simp
    tauto

theorem btree_foldl_length (keys : List Nat) :
    ∀ acc : List Nat, keys.Nodup → (∀ k ∈ keys, k ∉ acc) →
      (keys.foldl (fun a k' => sortedInsert k' a) acc).length = acc.length + keys.length := by
  induction keys with
  | nil => simp
  | cons key rest ih =>
    intro acc hnodup hdisj
    rw [List.foldl_cons]
    have hkey : key ∉ acc := hdisj key (by simp)
    have hrest : ∀ k ∈ rest, k ∉ sortedInsert key acc := by
      intro k hk
      rw [mem_sortedInsert]
      push_neg
      refine ⟨?_, hdisj k (by simp [hk])⟩
      intro heq
      subst heq
      exact absurd hk (List.nodup_cons.mp hnodup).1
    rw [ih (sortedInsert key acc) (List.nodup_cons.mp hnodup).2 hrest,
      sortedInsert_length_of_not_mem hkey]
    simp only [List.length_cons]
    omega

theorem mem_btreeSetOfList (l : List Nat) (k : Nat) : k ∈ btreeSetOfList l ↔ k ∈ l := by
  unfold btreeSetOfList
  rw [mem_btree_foldl]
  simp

theorem btreeSetOfList_length_of_nodup {l : List Nat} (h : l.Nodup) :
    (btreeSetOfList l).length = l.length := by
  unfold btreeSetOfList
  rw [btree_foldl_length l [] h (by simp)]
  simp

/-- C10: `CallFrame::new_root` seeds the root auth-zone with exactly one
ECDSA_TOKEN non-fungible proof whose ids are the distinct signer public keys
when the signer list is non-empty, and with no proofs at all when it is empty;
the root frame has depth 0 and hosts an empty worktop. With distinct signer
keys the proof holds exactly one non-fungible id per signer key. -/
theorem c10_new_root_auth_zone (txHash : Nat) (keys : List Nat) (cc ft : Nat) :
    (newRoot txHash keys cc ft).depth = 0 ∧
    (newRoot txHash keys cc ft).worktop = some ⟨[]⟩ ∧
    (keys = [] → (newRoot txHash keys cc ft).authZone = some ⟨[]⟩) ∧
    (keys ≠ [] →
      (newRoot txHash keys cc ft).authZone =
        some ⟨[⟨ECDSA_TOKEN, false, btreeSetOfList keys⟩]⟩) ∧
    (keys.Nodup → (btreeSetOfList keys).length = keys.length ∧
      ∀ k, k ∈ btreeSetOfList keys ↔ k ∈ keys) := by
  refine ⟨rfl, rfl, ?_, ?_, ?_⟩
  · intro hkeys
    subst hkeys
    rfl
  · intro hkeys
    have hne : btreeSetOfList keys ≠ [] := by
      cases keys with
      | nil => exact absurd rfl hkeys
      | cons k rest =>
        intro hempty
        have : k ∈ btreeSetOfList (k :: rest) := (mem_btreeSetOfList _ k).mpr (by simp)
        rw [hempty] at this
        exact absurd this (List.not_mem_nil k)
    simp [newRoot, Bucket.createProof, List.isEmpty_iff, hne]
  · intro hnodup
    exact ⟨btreeSetOfList_length_of_nodup hnodup, mem_btreeSetOfList keys⟩

/-- C10 witness: with signer keys [3, 2] the root frame's auth zone holds
exactly the ECDSA proof over ids {2, 3}, and with no signer keys it holds no
proof, by the new-root theorem. -/
theorem c10_new_root_auth_zone_witness :
    (newRoot 0 [3, 2] 5 6).authZone = some ⟨[⟨ECDSA_TOKEN, false, btreeSetOfList [3, 2]⟩]⟩ ∧
    (newRoot 0 [] 5 6).authZone = some ⟨[]⟩ ∧
    (btreeSetOfList [3, 2]).length = 2 :=
  ⟨(c10_new_root_auth_zone 0 [3, 2] 5 6).2.2.2.1 (by simp),
   (c10_new_root_auth_zone 0 [] 5 6).2.2.1 rfl,
   ((c10_new_root_auth_zone 0 [3, 2] 5 6).2.2.2.2 (by decide)).1⟩

/-- Store with no substates and no spaces. -/
def emptyStoreModel : SubstateStoreModel := ⟨fun _ => none, fun _ => none⟩

/-- Fresh track over the empty store. -/
def emptyTrack : TrackState := ⟨emptyStoreModel, 0, 0, [], [], [], [], [], [], []⟩

/-- ScryptoValue carrying no bytes and no identifiers. -/
def emptyScryptoValue : ScryptoValue := ⟨[], [], [], [], [], [], []⟩

/-- Caller frame for the invoke atomicity scenario: owns exactly the unlocked
bucket 1. -/
def c1CallerFrame : Frame :=
  ⟨0, 0, [(ValueId.Bucket 1, REValue.Bucket ⟨9, false, []⟩)], [], none, none, [],
    some 0, some 0⟩

/-- Invoke input referencing buckets 1 (owned) and 2 (absent). -/
def c1Input : ScryptoValue := ⟨[], [1, 2], [], [], [], [], []⟩

/-- C1: at the concrete failing input — the caller owns only unlocked bucket 1
and the invoke input references buckets 1 and 2 — `invoke_snode` returns
ValueNotFound(bucket 2) but bucket 1 has already been removed from the
caller's owned map and is not restored, so steps (1)-(4) are not atomic. -/
theorem c1_invoke_take_not_atomic :
    (invokeSnode c1CallerFrame emptyTrack SNodeRef.AuthZoneRef c1Input
      (.error .Panic)).1 = .error (.ValueNotFound (ValueId.Bucket 2)) ∧
    alistLookup (ValueId.Bucket 1)
      ((invokeSnode c1CallerFrame emptyTrack SNodeRef.AuthZoneRef c1Input
        (.error .Panic)).2.1).ownedValues = none := by
  constructor <;> rfl

/-- Store holding only the resource manager of resource 7. -/
def c2Store : SubstateStoreModel :=
  ⟨fun bs => if bs = [0, 7] then some ⟨SubstateValue.Resource 42, ⟨3, 0⟩⟩ else none,
   fun _ => none⟩

/-- Fresh track over the one-resource store. -/
def c2Track : TrackState := ⟨c2Store, 0, 0, [], [], [], [], [], [], []⟩

/-- Caller frame hosting an empty auth zone. -/
def c2CallerFrame : Frame := ⟨0, 0, [], [], none, some ⟨[]⟩, [], some 0, some 0⟩

/-- Invoke input naming resource addresses 7 (present) and 8 (absent). -/
def c2Input : ScryptoValue := ⟨[], [], [], [], [], [], [7, 8]⟩

/-- C2 counterexample: invoking the auth zone with resource addresses 7 and 8
acquires the lock on 7, then fails target resolution on 8
(ResourceManagerNotFound) — and on that error return path the lock on 7 is
never released: it is still in the track's borrowed set after the invoke. -/
theorem c2_resolution_error_leaks_lock :
    (invokeSnode c2CallerFrame c2Track SNodeRef.AuthZoneRef c2Input
      (.ok (emptyScryptoValue, []))).1 = .error (.ResourceManagerNotFound 8) ∧
    alistLookup (Address.Resource 7)
      ((invokeSnode c2CallerFrame c2Track SNodeRef.AuthZoneRef c2Input
        (.ok (emptyScryptoValue, []))).2.2).borrowedSubstates =
      some (BorrowedSubstate.Loaded (SubstateValue.Resource 42) 1) := by
  constructor <;> rfl

/-- Child frame owning one unrestricted proof, as left by a run body that
created it. -/
def c4ChildFrame : Frame :=
  ⟨0, 1, [(ValueId.Proof 7, REValue.Proof ⟨3, false, [1]⟩)], [], none, none, [],
    some 0, some 0⟩

/-- Run output referencing proof 7. -/
def c4Output : ScryptoValue := ⟨[], [], [7], [], [], [], []⟩

/-- Caller frame hosting an empty auth zone, owning nothing. -/
def c4CallerFrame : Frame := ⟨0, 0, [], [], none, some ⟨[]⟩, [], some 0, some 0⟩

/-- C4 counterexample: a child frame returns its unrestricted proof 7; the
run's return phase hands it back unrestricted, and the caller's invoke inserts
it into the caller's owned map still unrestricted — proofs are NOT marked
restricted when moved from child to caller. -/
theorem c4_returned_proof_not_restricted :
    (runReturnPhase c4ChildFrame (some SNodeRef.AuthZoneRef) c4Output).1 =
      .ok (c4Output, [(ValueId.Proof 7, REValue.Proof ⟨3, false, [1]⟩)]) ∧
    alistLookup (ValueId.Proof 7)
      ((invokeSnode c4CallerFrame emptyTrack SNodeRef.AuthZoneRef emptyScryptoValue
        (.ok (c4Output, [(ValueId.Proof 7, REValue.Proof ⟨3, false, [1]⟩)]))).2.1).ownedValues =
      some (REValue.Proof ⟨3, false, [1]⟩) := by
  constructor <;> rfl

/-- Frame owning exactly the unlocked (movable) bucket 1. -/
def c8Frame : Frame :=
  ⟨0, 0, [(ValueId.Bucket 1, REValue.Bucket ⟨9, false, []⟩)], [], none, none, [],
    some 0, some 0⟩

/-- Component whose state blob declares bucket 1 as its child. -/
def c8Component : Component := ⟨100, 5, ⟨[], [1], [], [], [], [], []⟩⟩

/-- C8 counterexample: creating a component whose state declares the owned,
unlocked (hence movable) bucket 1 as child fails with ValueNotAllowed — the
children must additionally be persistable, so presence and movability do not
suffice. -/
theorem c8_movable_bucket_child_rejected :
    (createValue c8Frame emptyTrack (.Complex (.Component c8Component))).1 =
      .error .ValueNotAllowed ∧
    (REValue.Bucket ⟨9, false, []⟩).verifyCanMove = .ok () ∧
    alistLookup (ValueId.Bucket 1) c8Frame.ownedValues =
      some (REValue.Bucket ⟨9, false, []⟩) := by
  refine ⟨?_, rfl, rfl⟩
  rfl

/-- Invoke input naming a single resource address and no movable values. -/
def zoneInput (r : Nat) : ScryptoValue := ⟨[], [], [], [], [], [], [r]⟩

/-- C2 (amended): the per-call lock set is released — exactly once per
address — only on the successful return path of `invoke_snode`: when the
child's run succeeds, every lock acquired during the invoke is released (the
borrowed set returns to its pre-invoke state); when the child's run returns
an error the error propagates and no acquired lock is released (the address
stays borrowed). -/
theorem c2_locks_released_only_on_success (fr : Frame) (tr : TrackState) (r : Nat)
    (az : AuthZone) (cc ft rm : Nat) (pid : PhysicalSubstateId)
    (haz : fr.authZone = some az)
    (hcc : fr.costUnitCounter = some cc) (hft : fr.feeTable = some ft)
    (hup : alistLookup (Address.Resource r).encode tr.upSubstates = none)
    (hbor : alistLookup (Address.Resource r) tr.borrowedSubstates = none)
    (hstore : tr.store.getSubstate (Address.Resource r).encode =
      some ⟨SubstateValue.Resource rm, pid⟩) :
    (∀ output received,
      ((invokeSnode fr tr SNodeRef.AuthZoneRef (zoneInput r)
        (.ok (output, received))).2.2).borrowedSubstates = tr.borrowedSubstates ∧
      (invokeSnode fr tr SNodeRef.AuthZoneRef (zoneInput r)
        (.ok (output, received))).1 = .ok output) ∧
    (∀ e,
      (invokeSnode fr tr SNodeRef.AuthZoneRef (zoneInput r) (.error e)).1 = .error e ∧
      alistLookup (Address.Resource r)
        ((invokeSnode fr tr SNodeRef.AuthZoneRef (zoneInput r)
          (.error e)).2.2).borrowedSubstates =
        some (.Loaded (SubstateValue.Resource rm) 1)) := by
  have htake : tr.takeLock (Address.Resource r) false = .ok
      { tr with
        downedSubstates := tr.downedSubstates ++ [pid]
        borrowedSubstates :=
          alistInsert (Address.Resource r) (.Loaded (SubstateValue.Resource rm) 1)
            tr.borrowedSubstates } := by
    simp [TrackState.takeLock, indexMapSwapRemove_of_lookup_none hup, hbor, hstore,
      BorrowedSubstate.loaded]
  have hlock : lockInputResources [r] tr [] [] =
      (.ok ([Address.Resource r],
        [(ValueId.Resource r, ⟨true, REValueLocation.Track (Address.Resource r)⟩)]),
       { tr with
         downedSubstates := tr.downedSubstates ++ [pid]
         borrowedSubstates :=
           alistInsert (Address.Resource r) (.Loaded (SubstateValue.Resource rm) 1)
             tr.borrowedSubstates }) := by
    simp [lockInputResources, htake, hashSetInsert, alistInsert]
  have hrel : releaseLockList [Address.Resource r]
      { tr with
        downedSubstates := tr.downedSubstates ++ [pid]
        borrowedSubstates :=
          alistInsert (Address.Resource r) (.Loaded (SubstateValue.Resource rm) 1)
            tr.borrowedSubstates } = .ok
      { tr with
        downedSubstates := tr.downedSubstates ++ [pid]
        borrowedSubstates := tr.borrowedSubstates
        upSubstates :=
          alistInsert (Address.Resource r).encode (SubstateValue.Resource rm)
            tr.upSubstates } := by
    simp [releaseLockList, TrackState.releaseLock, alistLookup_insert_self,
      alistRemove_insert_cancel _ hbor]
  constructor
  · intro output received
    constructor
    · simp [invokeSnode, processCallData, zoneInput, ScryptoValue.valueIds,
        takeAvailableValues, takeLoop, purgeRefs, haz, hcc, hft, hlock, hrel]
    · simp [invokeSnode, processCallData, zoneInput, ScryptoValue.valueIds,
        takeAvailableValues, takeLoop, purgeRefs, haz, hcc, hft, hlock, hrel]
  · intro e
    constructor
    · simp [invokeSnode, processCallData, zoneInput, ScryptoValue.valueIds,
        takeAvailableValues, takeLoop, purgeRefs, haz, hcc, hft, hlock]
    · simp [invokeSnode, processCallData, zoneInput, ScryptoValue.valueIds,
        takeAvailableValues, takeLoop, purgeRefs, haz, hcc, hft, hlock,
        alistLookup_insert_self]

/-- C2 witness: on the concrete one-resource track, a successful invoke
returns the borrowed set to its initial (empty) state, and an erroring run
propagates its error, by the lock-release theorem. -/
theorem c2_locks_released_only_on_success_witness :
    ((invokeSnode c2CallerFrame c2Track SNodeRef.AuthZoneRef (zoneInput 7)
      (.ok (emptyScryptoValue, []))).2.2).borrowedSubstates = c2Track.borrowedSubstates ∧
    (invokeSnode c2CallerFrame c2Track SNodeRef.AuthZoneRef (zoneInput 7)
      (.error .Panic)).1 = .error .Panic :=
  ⟨((c2_locks_released_only_on_success c2CallerFrame c2Track 7 ⟨[]⟩ 0 0 42 ⟨3, 0⟩
      rfl rfl rfl rfl rfl rfl).1 emptyScryptoValue []).1,
   ((c2_locks_released_only_on_success c2CallerFrame c2Track 7 ⟨[]⟩ 0 0 42 ⟨3, 0⟩
      rfl rfl rfl rfl rfl rfl).2 RuntimeError.Panic).1⟩

/-- C4 (amended): every proof among the values taken into an invoke is marked
restricted before the child frame receives it, and a restricted proof cannot
be moved across another call boundary (CantMoveRestrictedProof); but values
returned from the child are inserted into the caller's owned map unchanged —
in particular a proof returned by the child is NOT marked restricted on
receipt. -/
theorem c4_proof_restriction_on_send :
    (∀ (vals : List (ValueId × REValue)) id p,
      (id, REValue.Proof p) ∈ vals.map (fun q => (q.1, restrictProofForSend q.2)) →
      p.restricted = true) ∧
    (∀ p : Proof, p.restricted = true →
      (REValue.Proof p).verifyCanMove = .error .CantMoveRestrictedProof) ∧
    (∀ (fr : Frame) (tr : TrackState) az cc ft output pid (p : Proof),
      fr.authZone = some az → fr.costUnitCounter = some cc → fr.feeTable = some ft →
      alistLookup (ValueId.Proof pid)
        ((invokeSnode fr tr SNodeRef.AuthZoneRef emptyScryptoValue
          (.ok (output, [(ValueId.Proof pid, REValue.Proof p)]))).2.1).ownedValues =
        some (REValue.Proof p)) := by
  refine ⟨?_, ?_, ?_⟩
  · intro vals id p hmem
    rw [List.mem_map] at hmem
    obtain ⟨⟨qid, qv⟩, -, heq⟩ := hmem
    have hsnd : restrictProofForSend qv = REValue.Proof p := congrArg Prod.snd heq
    cases qv <;> simp only [restrictProofForSend] at hsnd <;>
      first
        | (injection hsnd with h2; rw [← h2])
        | exact REValue.noConfusion hsnd
  · intro p hp
    simp [REValue.verifyCanMove, hp]
  · intro fr tr az cc ft output pid p haz hcc hft
    simp [invokeSnode, processCallData, emptyScryptoValue, ScryptoValue.valueIds,
      takeAvailableValues, takeLoop, purgeRefs, haz, hcc, hft, lockInputResources,
      releaseLockList, alistLookup_insert_self]

/-- C4 witness: sending a concrete unrestricted proof marks it restricted, a
restricted proof fails the move check, and the caller receives a
child-returned proof unchanged, by the restriction theorem. -/
theorem c4_proof_restriction_on_send_witness :
    ((5 : Nat), REValue.Proof ⟨3, true, [1]⟩) ∈
      ([((5 : Nat) , REValue.Proof ⟨3, true, [1]⟩)]) ∧
    (REValue.Proof ⟨3, true, [1]⟩).verifyCanMove = .error .CantMoveRestrictedProof ∧
    alistLookup (ValueId.Proof 7)
      ((invokeSnode c4CallerFrame emptyTrack SNodeRef.AuthZoneRef emptyScryptoValue
        (.ok (emptyScryptoValue, [(ValueId.Proof 7, REValue.Proof ⟨3, false, [1]⟩)]))).2.1).ownedValues =
      some (REValue.Proof ⟨3, false, [1]⟩) :=
  ⟨by simp,
   c4_proof_restriction_on_send.2.1 ⟨3, true, [1]⟩ rfl,
   c4_proof_restriction_on_send.2.2 c4CallerFrame emptyTrack ⟨[]⟩ 0 0
     emptyScryptoValue 7 ⟨3, false, [1]⟩ rfl rfl rfl⟩

/-- Removal of a list of keys, the net owned-map effect of a successful taking
loop. -/
def alistRemoveAll {α β : Type} [DecidableEq α] (ks : List α) (m : List (α × β)) :
    List (α × β) :=
  ks.foldl (fun acc k => alistRemove k acc) m

theorem alistLookup_removeAll_of_none {α β : Type} [DecidableEq α] (ks : List α) :
    ∀ {m : List (α × β)} {k : α}, alistLookup k m = none →
      alistLookup k (alistRemoveAll ks m) = none := by
  induction ks with
  | nil => intro m k h; exact h
  | cons k' rest ih =>
    intro m k h
    exact ih (alistLookup_remove_of_none h)

theorem alistLookup_removeAll_mem {α β : Type} [DecidableEq α] (ks : List α) :
    ∀ {m : List (α × β)} {k : α}, k ∈ ks →
      alistLookup k (alistRemoveAll ks m) = none := by
  induction ks with
  | nil => intro m k h; exact absurd h (List.not_mem_nil k)
  | cons k' rest ih =>
    intro m k h
    rcases List.mem_cons.mp h with h1 | h2
    · subst h1
      exact alistLookup_removeAll_of_none rest (alistLookup_remove_self k m)
    · exact ih h2

theorem alistLookup_removeAll_not_mem {α β : Type} [DecidableEq α] (ks : List α) :
    ∀ {m : List (α × β)} {k : α}, k ∉ ks →
      alistLookup k (alistRemoveAll ks m) = alistLookup k m := by
  induction ks with
  | nil => intro m k _; rfl
  | cons k' rest ih =>
    intro m k h
    have h1 : k ∉ rest := fun hh => h (by simp [hh])
    have h2 : k ≠ k' := fun hh => h (by simp [hh])
    rw [show alistRemoveAll (k' :: rest) m = alistRemoveAll rest (alistRemove k' m) from rfl,
      ih h1, alistLookup_remove_ne m h2]

theorem purgeDescendantRefs_ownedValues (paths : List AddressPath) :
    ∀ fr : Frame, (purgeDescendantRefs paths fr).ownedValues = fr.ownedValues := by
  induction paths with
  | nil => intro fr; rfl
  | cons path rest ih =>
    intro fr
    cases path with
    | vid valueId => exact ih _
    | key k => exact ih _

theorem purgeRefs_ownedValues (taken : List (ValueId × REValue)) :
    ∀ fr : Frame, (purgeRefs taken fr).ownedValues = fr.ownedValues := by
  induction taken with
  | nil => intro fr; rfl
  | cons p rest ih =>
    intro fr
    rw [show purgeRefs (p :: rest) fr =
      purgeRefs rest (purgeDescendantRefs p.2.allDescendants
        { fr with valueRefs := alistRemove p.1 fr.valueRefs }) from rfl, ih,
      purgeDescendantRefs_ownedValues]

theorem takeLoop_all_ok (ids : List ValueId) :
    ∀ (fr : Frame) (acc : List (ValueId × REValue)),
      (∀ id ∈ ids, ∃ v, alistLookup id fr.ownedValues = some v ∧
        v.verifyCanMove = .ok () ∧ v.verifyCanPersist = .ok ()) →
      ids.Nodup →
      ∃ taken, takeLoop true ids fr acc [] =
          (.ok (acc ++ taken, []),
            { fr with ownedValues := alistRemoveAll ids fr.ownedValues }) ∧
        taken.map Prod.fst = ids ∧
        (∀ p ∈ taken, alistLookup p.1 fr.ownedValues = some p.2) := by
  induction ids with
  | nil =>
    intro fr acc _ _
    exact ⟨[], by simp [takeLoop, alistRemoveAll], rfl, by simp⟩
  | cons id rest ih =>
    intro fr acc hpres hnodup
    obtain ⟨v, hlook, hmove, hpersist⟩ := hpres id (by simp)
    have hrest : ∀ id' ∈ rest, ∃ v', alistLookup id'
        (Frame.ownedValues { fr with ownedValues := alistRemove id fr.ownedValues })
          = some v' ∧ v'.verifyCanMove = .ok () ∧ v'.verifyCanPersist = .ok () := by
      intro id' hid'
      obtain ⟨v', h1, h2, h3⟩ := hpres id' (by simp [hid'])
      have hne : id' ≠ id := by
        intro heq
        subst heq
        exact absurd hid' (List.nodup_cons.mp hnodup).1
      exact ⟨v', by simpa [alistLookup_remove_ne _ hne] using h1, h2, h3⟩
    obtain ⟨taken', heq, hmap, hmem⟩ :=
      ih { fr with ownedValues := alistRemove id fr.ownedValues } (acc ++ [(id, v)])
        hrest (List.nodup_cons.mp hnodup).2
    refine ⟨(id, v) :: taken', ?_, by simp [hmap], ?_⟩
    · have hstep : takeLoop true (id :: rest) fr acc [] =
          takeLoop true rest { fr with ownedValues := alistRemove id fr.ownedValues }
            (acc ++ [(id, v)]) [] := by
        simp [takeLoop, hlook, hmove, hpersist]
      rw [hstep, heq]
      simp [alistRemoveAll]
    · intro p hp
      rcases List.mem_cons.mp hp with hp1 | hp2
      · subst hp1
        exact hlook
      · have hlk := hmem p hp2
        have hpfst : p.1 ∈ rest := by
          rw [← hmap]
          exact List.mem_map_of_mem Prod.fst hp2
        have hne : p.1 ≠ id := fun heq =>
          absurd (heq ▸ hpfst) (List.nodup_cons.mp hnodup).1
        rwa [alistLookup_remove_ne _ hne] at hlk

/-- C8 (amended): `create_value` of a Component succeeds when every child
value-id declared in the component's state is present in the creating frame's
owned map, movable, AND persistable; on success the children are removed from
the frame's owned map and stored inside the new component value, and a
missing child yields ValueNotFound. (Presence and movability alone do not
suffice: a non-persistable child such as a bucket is rejected with
ValueNotAllowed.) -/
theorem c8_create_component_children (fr : Frame) (tr : TrackState) (comp : Component) :
    ((∀ id ∈ comp.state.valueIds, ∃ v, alistLookup id fr.ownedValues = some v ∧
        v.verifyCanMove = .ok () ∧ v.verifyCanPersist = .ok ()) →
      comp.state.valueIds.Nodup →
      ValueId.Component tr.idCounter ∉ comp.state.valueIds →
      ∃ (taken : List (ValueId × REValue)) (fr' : Frame),
        createValue fr tr (REValueByComplexity.Complex (.Component comp)) =
          (.ok (ValueId.Component tr.idCounter), fr',
            { tr with idCounter := tr.idCounter + 1 }) ∧
        taken.map Prod.fst = comp.state.valueIds ∧
        (∀ p ∈ taken, alistLookup p.1 fr.ownedValues = some p.2) ∧
        alistLookup (ValueId.Component tr.idCounter) fr'.ownedValues =
          some (REValue.Component comp
            (taken.map (fun p => (AddressPath.vid p.1, p.2)))) ∧
        (∀ id ∈ comp.state.valueIds, alistLookup id fr'.ownedValues = none)) ∧
    (∀ id, comp.state.valueIds = [id] → alistLookup id fr.ownedValues = none →
      (createValue fr tr (REValueByComplexity.Complex (.Component comp))).1 =
        .error (.ValueNotFound id)) := by
  constructor
  · intro hpres hnodup hfresh
    obtain ⟨taken, heq, hmap, hmem⟩ :=
      takeLoop_all_ok comp.state.valueIds fr [] hpres hnodup
    refine ⟨taken,
      { purgeRefs taken
          { fr with ownedValues := alistRemoveAll comp.state.valueIds fr.ownedValues } with
        ownedValues := alistInsert (ValueId.Component tr.idCounter)
          (REValue.Component comp (taken.map (fun p => (AddressPath.vid p.1, p.2))))
          (alistRemoveAll comp.state.valueIds fr.ownedValues) },
      ?_, hmap, hmem, ?_, ?_⟩
    · simp [createValue, allocValueId, REComplexValue.getChildren,
        REComplexValue.intoReValue, takeAvailableValues, heq, purgeRefs_ownedValues]
    · exact alistLookup_insert_self _ _ _
    · intro id hid
      have hne : id ≠ ValueId.Component tr.idCounter := fun hh => hfresh (hh ▸ hid)
      rw [show Frame.ownedValues
          { purgeRefs taken
              { fr with ownedValues := alistRemoveAll comp.state.valueIds fr.ownedValues } with
            ownedValues := alistInsert (ValueId.Component tr.idCounter)
              (REValue.Component comp (taken.map (fun p => (AddressPath.vid p.1, p.2))))
              (alistRemoveAll comp.state.valueIds fr.ownedValues) } =
          alistInsert (ValueId.Component tr.idCounter)
            (REValue.Component comp (taken.map (fun p => (AddressPath.vid p.1, p.2))))
            (alistRemoveAll comp.state.valueIds fr.ownedValues) from rfl,
        alistLookup_insert_ne _ _ hne]
      exact alistLookup_removeAll_mem comp.state.valueIds hid
  · intro id hcv hlook
    simp [createValue, allocValueId, REComplexValue.getChildren, hcv,
      takeAvailableValues, takeLoop, hlook, purgeRefs, purgeDescendantRefs]

/-- C8 witness: creating a component whose state declares the owned kv-store 3
as its only child succeeds, adopting the child and removing it from the
creating frame, by the create-component theorem. -/
theorem c8_create_component_children_witness :
    ∃ (taken : List (ValueId × REValue)) (fr' : Frame),
      createValue (Frame.mk 0 0
          [(ValueId.KeyValueStore 3, REValue.KeyValueStore [] [])] [] none none []
          (some 0) (some 0)) emptyTrack
        (REValueByComplexity.Complex (.Component ⟨100, 5, ⟨[], [], [], [], [3], [], []⟩⟩)) =
        (.ok (ValueId.Component 0), fr', { emptyTrack with idCounter := 1 }) ∧
      taken.map Prod.fst = [ValueId.KeyValueStore 3] ∧
      alistLookup (ValueId.KeyValueStore 3) fr'.ownedValues = none := by
  obtain ⟨taken, fr', heq, hmap, -, -, hgone⟩ :=
    (c8_create_component_children
      (Frame.mk 0 0 [(ValueId.KeyValueStore 3, REValue.KeyValueStore [] [])] []
        none none [] (some 0) (some 0))
      emptyTrack ⟨100, 5, ⟨[], [], [], [], [3], [], []⟩⟩).1
      (fun id hid => by
        rw [show id = ValueId.KeyValueStore 3 from List.mem_singleton.mp hid]
        exact ⟨REValue.KeyValueStore [] [], rfl, rfl, rfl⟩)
      (by decide) (by decide)
  exact ⟨taken, fr', heq, hmap, hgone (ValueId.KeyValueStore 3) (by decide)⟩

/-- C9: reading a Component's Info offset through `read_value_data` succeeds
even when the component id has no entry in the frame's visibility table — via
the escape hatch of `read_value_internal` — provided the component is in the
frame's owned map (state fully unchanged) or can be share-locked in Track
(shown here for a component fetched fresh from the store); in the Track case
the lock taken for the read is released before returning, leaving the track's
borrowed-substates set unchanged by the call. -/
theorem c9_component_info_global_read (fr : Frame) (tr : TrackState) (ca : Nat)
    (href : alistLookup (ValueId.Component ca) fr.valueRefs = none) :
    (∀ comp children,
      alistLookup (ValueId.Component ca) fr.ownedValues =
        some (REValue.Component comp children) →
      readValueData fr tr (SubstateAddress.Component ca ComponentOffset.Info) =
        (.ok (scryptoInfoValue comp.packageAddress comp.blueprintName), fr, tr)) ∧
    (∀ comp pid,
      alistLookup (ValueId.Component ca) fr.ownedValues = none →
      alistLookup (Address.GlobalComponent ca).encode tr.upSubstates = none →
      alistLookup (Address.GlobalComponent ca) tr.borrowedSubstates = none →
      tr.store.getSubstate (Address.GlobalComponent ca).encode =
        some ⟨SubstateValue.Component comp, pid⟩ →
      readValueData fr tr (SubstateAddress.Component ca ComponentOffset.Info) =
        (.ok (scryptoInfoValue comp.packageAddress comp.blueprintName), fr,
          { tr with
            downedSubstates := tr.downedSubstates ++ [pid]
            upSubstates := alistInsert (Address.GlobalComponent ca).encode
              (SubstateValue.Component comp) tr.upSubstates })) := by
  constructor
  · intro comp children howned
    simp [readValueData, readValueInternal, substateAddressValueId, href, howned,
      refReadCurrentValue, resolveOwnedValue, extendChildRefs, scryptoInfoValue,
      ScryptoValue.valueIds]
  · intro comp pid howned hup hbor hstore
    have htake : tr.takeLock (Address.GlobalComponent ca) false = .ok
        { tr with
          downedSubstates := tr.downedSubstates ++ [pid]
          borrowedSubstates :=
            alistInsert (Address.GlobalComponent ca)
              (.Loaded (SubstateValue.Component comp) 1) tr.borrowedSubstates } := by
      simp [TrackState.takeLock, indexMapSwapRemove_of_lookup_none hup, hbor, hstore,
        BorrowedSubstate.loaded]
    have hrel : TrackState.releaseLock
        { tr with
          downedSubstates := tr.downedSubstates ++ [pid]
          borrowedSubstates :=
            alistInsert (Address.GlobalComponent ca)
              (.Loaded (SubstateValue.Component comp) 1) tr.borrowedSubstates }
        (Address.GlobalComponent ca) = .ok
        { tr with
          downedSubstates := tr.downedSubstates ++ [pid]
          upSubstates := alistInsert (Address.GlobalComponent ca).encode
            (SubstateValue.Component comp) tr.upSubstates } := by
      simp [TrackState.releaseLock, alistLookup_insert_self,
        alistRemove_insert_cancel _ hbor]
    simp [readValueData, readValueInternal, substateAddressValueId, href, howned,
      htake, hrel, refReadCurrentValue, TrackState.readValue, alistLookup_insert_self,
      extendChildRefs, scryptoInfoValue, ScryptoValue.valueIds]

/-- C9 witness: on a concrete frame with empty visibility table and a store
holding global component 5, the Info read succeeds and leaves the borrowed
set empty, by the global-read theorem. -/
theorem c9_component_info_global_read_witness :
    readValueData (Frame.mk 0 0 [] [] none none [] none none)
      (TrackState.mk
        ⟨fun bs => if bs = [1, 5] then
            some ⟨SubstateValue.Component ⟨77, 3, emptyScryptoValue⟩, ⟨4, 0⟩⟩ else none,
          fun _ => none⟩ 0 0 [] [] [] [] [] [] [])
      (SubstateAddress.Component 5 ComponentOffset.Info) =
      (.ok (scryptoInfoValue 77 3), Frame.mk 0 0 [] [] none none [] none none,
        { (TrackState.mk
            ⟨fun bs => if bs = [1, 5] then
                some ⟨SubstateValue.Component ⟨77, 3, emptyScryptoValue⟩, ⟨4, 0⟩⟩ else none,
              fun _ => none⟩ 0 0 [] [] [] [] [] [] []) with
          downedSubstates := [⟨4, 0⟩]
          upSubstates := [([1, 5], SubstateValue.Component ⟨77, 3, emptyScryptoValue⟩)] }) :=
  (c9_component_info_global_read (Frame.mk 0 0 [] [] none none [] none none)
    (TrackState.mk
      ⟨fun bs => if bs = [1, 5] then
          some ⟨SubstateValue.Component ⟨77, 3, emptyScryptoValue⟩, ⟨4, 0⟩⟩ else none,
        fun _ => none⟩ 0 0 [] [] [] [] [] [] []) 5 rfl).2
    ⟨77, 3, emptyScryptoValue⟩ ⟨4, 0⟩ rfl rfl rfl rfl
